import Mathlib

/-!
Verification development for the SQL script orchestration and text-transformation
pipeline of `app/installer/backend.py` (eFlowInstaller).

The Python source is shallowly embedded: pure text transforms become Lean
functions over `List Char` / `String`; the filesystem side effects of staging
become explicit state passing over an association-list filesystem; the external
SQL executor, the SHA-256 digest and Unicode NFKC normalization are collaborator
capabilities and enter as function parameters of the model.

Modelling notes (deviations forced by external collaborators):
* `unicodedata.normalize("NFKC", ...)` is an external library function; the
  sanitizers take it as a parameter `nfkc : String → String`.  Theorems about
  ASCII-only inputs add the (true) fact that NFKC is the identity on ASCII as a
  hypothesis, or instantiate `nfkc := id` on concrete ASCII inputs.
* `hashlib.sha256` is abstracted as a parameter `hash : String → String`;
  where the code relies on digests being 64 hex characters this is a
  hypothesis `∀ s, (hash s).length = 64`.
* Python `str` case mapping and the regex classes `\w`, `\d` are modelled on
  their ASCII fragment (`Char.toLower`, `Char.isAlphanum`, ASCII digits); the
  Unicode whitespace set of `\s` / `str.strip` is modelled in full.
* Iteration over the Python set `_BAD_CHARS` has unspecified order; the model
  fixes the literal order of the source.  The result of the bad-character pass
  is order-independent (removals of distinct characters commute), so this is
  harmless.
-/

namespace EFlowInstaller

/-! ### Character classes used by the source -/

/-- Printable ASCII, codepoints 32..126 (the `32 <= o <= 126` test of the source). -/
def isPrintableAscii (c : Char) : Bool := 32 ≤ c.toNat && c.toNat ≤ 126

/-- The `c in ("\r", "\n", "\t")` test of the source. -/
def isCrLfTab (c : Char) : Bool := c = '\r' || c = '\n' || c = '\t'

/-- Unicode general category Cc (control): U+0000..U+001F and U+007F..U+009F. -/
def isCategoryCc (c : Char) : Bool := c.toNat < 32 || (127 ≤ c.toNat && c.toNat ≤ 159)

/-- Unicode general category Zl (line separator): exactly U+2028. -/
def isCategoryZl (c : Char) : Bool := c.toNat == 8232

/-- Unicode general category Zp (paragraph separator): exactly U+2029. -/
def isCategoryZp (c : Char) : Bool := c.toNat == 8233

/-- The Unicode whitespace set used by Python `str.strip()` and the regex class
`\s` (over `str`). -/
def isPyWhitespace (c : Char) : Bool :=
  [9, 10, 11, 12, 13, 28, 29, 30, 31, 32, 133, 160, 5760,
   8192, 8193, 8194, 8195, 8196, 8197, 8198, 8199, 8200, 8201, 8202,
   8232, 8233, 8239, 8287, 12288].contains c.toNat

/-- The regex class `\w` (ASCII fragment): letters, digits, underscore. -/
def isWordChar (c : Char) : Bool := c.isAlphanum || c = '_'

/-- ASCII digit, modelling `\d` on the inputs of interest. -/
def isAsciiDigit (c : Char) : Bool := '0' ≤ c && c ≤ '9'

/-- A regex word boundary `\b` immediately before a word character, given the
previous character of the text (`none` at the start of the text). -/
def boundaryBefore : Option Char → Bool
  | none => true
  | some p => !isWordChar p

/-! ### Python string primitives -/

/-- Line-break characters recognized by Python `str.splitlines`. -/
def isLineBreakChar (c : Char) : Bool :=
  [10, 11, 12, 13, 28, 29, 30, 133, 8232, 8233].contains c.toNat

/-- Worker for `pySplitlines`: `line` is the current line, reversed. -/
def pySplitlinesGo : List Char → List Char → List (List Char)
  | line, [] => if line.isEmpty then [] else [line.reverse]
  | line, '\r' :: '\n' :: t => line.reverse :: pySplitlinesGo [] t
  | line, c :: t =>
    if isLineBreakChar c then line.reverse :: pySplitlinesGo [] t
    else pySplitlinesGo (c :: line) t

/-- Python `str.splitlines()` (without keepends). -/
def pySplitlines (cs : List Char) : List (List Char) := pySplitlinesGo [] cs

/-- Strip characters satisfying `p` from both ends (Python `str.strip`). -/
def pyStripChars (p : Char → Bool) (cs : List Char) : List Char :=
  ((cs.dropWhile p).reverse.dropWhile p).reverse

/-- Python `str.strip()` with no argument: strip Unicode whitespace. -/
def pyStrip (cs : List Char) : List Char := pyStripChars isPyWhitespace cs

/-- Worker for `pyReplace`, fuelled so that it is kernel-computable. -/
def pyReplaceGo (pat rep : List Char) : Nat → List Char → List Char
  | 0, cs => cs
  | _ + 1, [] => []
  | fuel + 1, c :: cs =>
    if pat.isPrefixOf (c :: cs) then
      rep ++ pyReplaceGo pat rep fuel ((c :: cs).drop pat.length)
    else
      c :: pyReplaceGo pat rep fuel cs

/-- Python `str.replace(pat, rep)` (all non-overlapping occurrences, left to
right; an empty pattern interleaves `rep` at every position, as in CPython). -/
def pyReplace (cs pat rep : List Char) : List Char :=
  if pat.isEmpty then rep ++ cs.flatMap (fun c => c :: rep)
  else pyReplaceGo pat rep cs.length cs

/-- Uppercase hex digit. -/
def hexDigitChar (n : Nat) : Char := "0123456789ABCDEF".data.getD n '0'

/-- Python `f"{n:04X}"` for codepoints (≤ 6 hex digits). -/
def hexUpper4 (n : Nat) : List Char :=
  let d := fun (k : Nat) => hexDigitChar (n / 16 ^ k % 16)
  if n ≥ 16 ^ 5 then [d 5, d 4, d 3, d 2, d 1, d 0]
  else if n ≥ 16 ^ 4 then [d 4, d 3, d 2, d 1, d 0]
  else [d 3, d 2, d 1, d 0]

/-! ### `_scan_non_ascii_lines` -/

/-- The per-character test of `_scan_non_ascii_lines`:
`c not in ("\r","\n","\t") and (ord(c) < 32 or ord(c) > 126)`. -/
def isScanBadChar (c : Char) : Bool :=
  !isCrLfTab c && (c.toNat < 32 || c.toNat > 126)

/-- One report entry: 1-based line number, excerpt (at most 160 chars), and the
`U+XXXX` hex forms of the offending characters. -/
abbrev NonAsciiEntry := Nat × String × List String

/-- The excerpt of a reported line: the line itself if at most 160 characters,
otherwise its first 157 characters followed by `...`. -/
def lineExcerpt (line : List Char) : String :=
  if line.length ≤ 160 then String.mk line else String.mk (line.take 157) ++ "..."

/-- `_scan_non_ascii_lines`: scan the text line by line (1-based) and report
every line holding a character outside CR/LF/TAB/printable ASCII. -/
def scanNonAsciiLines (txt : String) : List NonAsciiEntry :=
  (pySplitlines txt.data).enum.filterMap fun p =>
    let bads := p.2.filter isScanBadChar
    if bads.isEmpty then none
    else some (p.1 + 1, lineExcerpt p.2,
      bads.map fun c => "U+" ++ String.mk (hexUpper4 c.toNat))

/-! ### Sanitization (`sanitize_sql_text_light` / `sanitize_sql_text_aggressive`) -/

/-- `_BAD_CHARS` of the source, in its literal order (a Python set; the pass
below is order-independent). -/
def badChars : List Char :=
  ['¶', '﻿', '​', '‌', '‍', ' ', ' ', ' ']

/-- The bad-character removal loop: for each bad character present, remove all
its occurrences and count one change. -/
def removeBadChars (cs : List Char) : List Char × Nat :=
  badChars.foldl
    (fun acc ch =>
      if acc.1.contains ch then (acc.1.filter (· ≠ ch), acc.2 + 1) else acc)
    (cs, 0)

/-- The aggressive per-character pass: keep CR/LF/TAB and printable ASCII,
drop (and count) everything else. -/
def aggressiveClean : List Char → List Char × Nat
  | [] => ([], 0)
  | c :: cs =>
    let r := aggressiveClean cs
    if isCrLfTab c then (c :: r.1, r.2)
    else if isPrintableAscii c then (c :: r.1, r.2)
    else (r.1, r.2 + 1)

/-- The light per-character pass: keep CR/LF/TAB; drop (and count) category
Zl/Zp/Cc characters other than the space; keep the rest. -/
def lightClean : List Char → List Char × Nat
  | [] => ([], 0)
  | c :: cs =>
    let r := lightClean cs
    if isCrLfTab c then (c :: r.1, r.2)
    else if (isCategoryZl c || isCategoryZp c || isCategoryCc c) && c ≠ ' ' then
      (r.1, r.2 + 1)
    else (c :: r.1, r.2)

/-- `n.replace("\r\n", "\n")`. -/
def replaceCrlfToLf : List Char → List Char
  | [] => []
  | [c] => [c]
  | c :: d :: t =>
    if c = '\r' && d = '\n' then '\n' :: replaceCrlfToLf t
    else c :: replaceCrlfToLf (d :: t)

/-- `n.replace("\r", "\n")`. -/
def replaceCrToLf (cs : List Char) : List Char :=
  cs.map fun c => if c = '\r' then '\n' else c

/-- `n.replace("\n", "\r\n")`. -/
def replaceLfToCrlf : List Char → List Char
  | [] => []
  | c :: t =>
    if c = '\n' then '\r' :: '\n' :: replaceLfToCrlf t
    else c :: replaceLfToCrlf t

/-- The EOL normalization of the sanitizers: all line endings to CRLF. -/
def normalizeEol (cs : List Char) : List Char :=
  replaceLfToCrlf (replaceCrToLf (replaceCrlfToLf cs))

/-- The keyword alternatives of the glued-keyword regex. -/
def sqlKeywords : List (List Char) :=
  ["DELETE".data, "UPDATE".data, "INSERT".data, "SELECT".data]

/-- Case-insensitive literal match of `tok` at the head of `cs`; returns the
actual consumed characters and the rest. -/
def matchCIToken : List Char → List Char → Option (List Char × List Char)
  | [], cs => some ([], cs)
  | _ :: _, [] => none
  | t :: ts, c :: cs =>
    if c.toLower = t.toLower then
      (matchCIToken ts cs).map fun p => (c :: p.1, p.2)
    else none

/-- Try to match one of the four keywords at the head of `cs`. -/
def matchKeywordAt (cs : List Char) : Option (List Char × List Char) :=
  sqlKeywords.firstM fun kw => matchCIToken kw cs

/-- The negative lookahead `(?!\s)`: succeeds at end of text or before a
non-whitespace character. -/
def lookaheadNotWs : List Char → Bool
  | [] => true
  | c :: _ => !isPyWhitespace c

/-- Worker for the glued-keyword substitution
`re.sub(r"\b(DELETE|UPDATE|INSERT|SELECT)(?!\s)", r"\1 ", n, IGNORECASE)`:
scan left to right, inserting a space after a matched keyword. -/
def kwFixGo : Nat → Option Char → List Char → List Char
  | 0, _, cs => cs
  | _ + 1, _, [] => []
  | fuel + 1, prev, c :: cs =>
    match boundaryBefore prev, matchKeywordAt (c :: cs) with
    | true, some (kchars, rest) =>
      if lookaheadNotWs rest then
        kchars ++ ' ' :: kwFixGo fuel kchars.getLast? rest
      else c :: kwFixGo fuel (some c) cs
    | _, _ => c :: kwFixGo fuel (some c) cs

/-- The glued-keyword substitution applied to a whole text. -/
def kwFixApply (cs : List Char) : List Char := kwFixGo cs.length none cs

/-- `sanitize_sql_text_aggressive` (the NFKC normalizer is a parameter). -/
def sanitize_sql_text_aggressive (nfkc : String → String) (txt : String) :
    String × Nat × List NonAsciiEntry :=
  let report := scanNonAsciiLines txt
  let n0 := (nfkc txt).data
  let b := removeBadChars n0
  let a := aggressiveClean b.1
  let n1 := normalizeEol a.1
  let n2 := kwFixApply n1
  if n2 = n1 then (String.mk n1, b.2 + a.2, report)
  else (String.mk n2, b.2 + a.2 + 1, report)

/-- `sanitize_sql_text_light` (the NFKC normalizer is a parameter). -/
def sanitize_sql_text_light (nfkc : String → String) (txt : String) :
    String × Nat × List NonAsciiEntry :=
  let report := scanNonAsciiLines txt
  let n0 := (nfkc txt).data
  let b := removeBadChars n0
  let l := lightClean b.1
  let n1 := normalizeEol l.1
  let n2 := kwFixApply n1
  if n2 = n1 then (String.mk n1, b.2 + l.2, report)
  else (String.mk n2, b.2 + l.2 + 1, report)

/-- Sanitization level (`sanitize_level` form field). -/
inductive SanLevel
  | nolevel
  | light
  | aggressive
deriving DecidableEq, Repr

/-- The pure content/report behaviour of `sanitize_sql_file`: at level `none`
the function returns before scanning (no report, no change); otherwise the file
is rewritten only when the change count is positive (so, in particular, a pure
EOL normalization with `changes = 0` is discarded). -/
def sanitizeFileModel (nfkc : String → String) (level : SanLevel) (txt : String) :
    String × List NonAsciiEntry :=
  match level with
  | .nolevel => (txt, [])
  | .light =>
    let r := sanitize_sql_text_light nfkc txt
    (if r.2.1 > 0 then r.1 else txt, r.2.2)
  | .aggressive =>
    let r := sanitize_sql_text_aggressive nfkc txt
    (if r.2.1 > 0 then r.1 else txt, r.2.2)

/-! ### Bracketed database-name rewrite (`_replace_db_name_in_sql_text`) -/

/-- `_RESERVED_BKT` of the source. -/
def reservedBracketNames : List String :=
  ["dbo", "PRIMARY", "MGMT", "SYS", "INFORMATION_SCHEMA", "TEMPDB", "MODEL", "MSDB", "MASTER"]

/-- ASCII uppercase, modelling Python `str.upper()` on the inputs of interest. -/
def asciiUpper (cs : List Char) : List Char := cs.map Char.toUpper

/-- `_is_reserved`: strip whitespace, then double quotes, then single quotes,
uppercase, and test membership of the uppercased reserved set. -/
def isReservedName (name : List Char) : Bool :=
  let n := pyStripChars (· = '\'') (pyStripChars (· = '"') (pyStrip name))
  (reservedBracketNames.map fun s => String.mk (asciiUpper s.data)).contains
    (String.mk (asciiUpper n))

/-- `\s+`: at least one whitespace character; returns it and the rest. -/
def matchWsPlus (cs : List Char) : Option (List Char × List Char) :=
  let w := cs.takeWhile isPyWhitespace
  if w.isEmpty then none else some (w, cs.drop w.length)

/-- A sequence of case-insensitive literal tokens separated by `\s+`. -/
def matchTokensSeq : List (List Char) → List Char → Option (List Char × List Char)
  | [], cs => some ([], cs)
  | [t], cs => matchCIToken t cs
  | t :: ts, cs => do
    let p1 ← matchCIToken t cs
    let w ← matchWsPlus p1.2
    let p2 ← matchTokensSeq ts w.2
    some (p1.1 ++ w.1 ++ p2.1, p2.2)

/-- Match one of the database-statement patterns
`\b<tokens>\s*\[([^\]]*)\]` at the head of `cs` (the word boundary is checked
by the caller).  Returns the text of group 1 (everything up to and including
the opening bracket), the captured name, and the rest after the closing
bracket. -/
def tryMatchDbPattern (toks : List (List Char)) (cs : List Char) :
    Option (List Char × List Char × List Char) := do
  let p ← matchTokensSeq toks cs
  let w := p.2.takeWhile isPyWhitespace
  match p.2.drop w.length with
  | '[' :: r2 =>
    let name := r2.takeWhile (· ≠ ']')
    match r2.drop name.length with
    | ']' :: rest => some (p.1 ++ w ++ ['['], name, rest)
    | _ => none
  | _ => none

/-- Worker for `_sub_db`: scan left to right; at a match, keep the statement
verbatim when the (stripped) name is nonempty and reserved, otherwise replace
the name with `db` and count one substitution. -/
def subDbGo (toks : List (List Char)) (db : List Char) :
    Nat → Option Char → List Char → List Char × Nat
  | 0, _, cs => (cs, 0)
  | _ + 1, _, [] => ([], 0)
  | fuel + 1, prev, c :: cs =>
    match boundaryBefore prev, tryMatchDbPattern toks (c :: cs) with
    | true, some (g1, name, rest) =>
      let stripped := pyStrip name
      let r := subDbGo toks db fuel (some ']') rest
      if !stripped.isEmpty && isReservedName stripped then
        (g1 ++ name ++ ']' :: r.1, r.2)
      else
        (g1 ++ db ++ ']' :: r.1, r.2 + 1)
    | _, _ =>
      let r := subDbGo toks db fuel (some c) cs
      (c :: r.1, r.2)

/-- `_sub_db` for one statement pattern. -/
def subDb (toks : List (List Char)) (text : List Char) (db : List Char) :
    List Char × Nat :=
  subDbGo toks db text.length none text

/-- The token sequences of the eight database-statement regexes. -/
def dbPatternUse : List (List Char) := ["USE".data]

def dbPatternCreate : List (List Char) := ["CREATE".data, "DATABASE".data]

def dbPatternAlter : List (List Char) := ["ALTER".data, "DATABASE".data]

def dbPatternDrop : List (List Char) := ["DROP".data, "DATABASE".data]

def dbPatternBackup : List (List Char) := ["BACKUP".data, "DATABASE".data]

def dbPatternRestore : List (List Char) := ["RESTORE".data, "DATABASE".data]

def dbPatternAlterAuth : List (List Char) :=
  ["ALTER".data, "AUTHORIZATION".data, "ON".data, "DATABASE::".data]

def dbPatternScope : List (List Char) := ["DATABASE::".data]

/-- Worker for the `_RE_EMPTY_BKT` substitution `\[\s*\]` → `[db]`. -/
def subEmptyBracketsGo (db : List Char) : Nat → List Char → List Char × Nat
  | 0, cs => (cs, 0)
  | _ + 1, [] => ([], 0)
  | fuel + 1, c :: cs =>
    if c = '[' then
      let w := cs.takeWhile isPyWhitespace
      match cs.drop w.length with
      | ']' :: rest =>
        let r := subEmptyBracketsGo db fuel rest
        ('[' :: db ++ ']' :: r.1, r.2 + 1)
      | _ =>
        let r := subEmptyBracketsGo db fuel cs
        (c :: r.1, r.2)
    else
      let r := subEmptyBracketsGo db fuel cs
      (c :: r.1, r.2)

/-- `_replace_db_name_in_sql_text`: the eight statement substitutions, in
source order, followed by the empty-bracket substitution; returns the new
text and the total substitution count. -/
def replace_db_name_in_sql_text (sql : String) (dbName : String) : String × Nat :=
  let db := dbName.data
  let s1 := subDb dbPatternUse sql.data db
  let s2 := subDb dbPatternCreate s1.1 db
  let s3 := subDb dbPatternAlter s2.1 db
  let s4 := subDb dbPatternDrop s3.1 db
  let s5 := subDb dbPatternBackup s4.1 db
  let s6 := subDb dbPatternRestore s5.1 db
  let s7 := subDb dbPatternAlterAuth s6.1 db
  let s8 := subDb dbPatternScope s7.1 db
  let s9 := subEmptyBracketsGo db s8.1.length s8.1
  (String.mk s9.1,
   s1.2 + s2.2 + s3.2 + s4.2 + s5.2 + s6.2 + s7.2 + s8.2 + s9.2)

/-! ### MDF/LDF rewrite (`_rewrite_file_paths_in_sql_text`) -/

/-- Python truthiness of an optional string (`None` and `""` are falsy). -/
def truthy : Option String → Bool
  | none => false
  | some s => !s.isEmpty

/-- `norm_dir`: `None`/empty stays `None`; otherwise strip trailing slashes and
backslashes and append one backslash. -/
def normDir : Option String → Option String
  | none => none
  | some d =>
    if d.isEmpty then none
    else some (String.mk
      ((d.data.reverse.dropWhile (fun c => c = '\\' || c = '/')).reverse ++ ['\\']))

/-- Is the character a single or double quote. -/
def isQuoteChar (c : Char) : Bool := c = '\'' || c = '"'

/-- Match `<kw>\s*=\s*N?['\"]` at the head of `cs` (used with `FILENAME` and
`NAME`); returns group 1 (including the opening quote) and the rest. -/
def matchEqQuoteHead (kw : List Char) (cs : List Char) :
    Option (List Char × List Char) := do
  let p ← matchCIToken kw cs
  let w1 := p.2.takeWhile isPyWhitespace
  match p.2.drop w1.length with
  | c0 :: r1 =>
    if c0 = '=' then
      let w2 := r1.takeWhile isPyWhitespace
      match r1.drop w2.length with
      | n :: rest2 =>
        match rest2 with
        | q :: rest =>
          if (n = 'N' || n = 'n') && isQuoteChar q then
            some (p.1 ++ w1 ++ '=' :: w2 ++ [n, q], rest)
          else if isQuoteChar n then
            some (p.1 ++ w1 ++ '=' :: w2 ++ [n], q :: rest)
          else none
        | [] =>
          if isQuoteChar n then some (p.1 ++ w1 ++ '=' :: w2 ++ [n], [])
          else none
      | [] => none
    else none
  | [] => none

/-- The lazy group `([^'\"]*?\.ext)` followed by a quote: the shortest
quote-free prefix ending in `ext` (case-insensitively) with a quote right
after it.  Returns (group 2, closing quote, rest). -/
def scanLazyExt (ext : List Char) : List Char → Option (List Char × Char × List Char)
  | [] => none
  | c :: cs =>
    match matchCIToken ext (c :: cs) with
    | some (echars, q :: rest) =>
      if isQuoteChar q then some (echars, q, rest)
      else if isQuoteChar c then none
      else (scanLazyExt ext cs).map fun p => (c :: p.1, p.2.1, p.2.2)
    | _ =>
      if isQuoteChar c then none
      else (scanLazyExt ext cs).map fun p => (c :: p.1, p.2.1, p.2.2)

/-- Worker for the `MDF_RE`/`LDF_RE` substitutions: with no configured
directory every match is kept verbatim (the handler returns `m.group(0)`),
otherwise the whole quoted path becomes `dir ++ db ++ target`. -/
def subFilenameGo (ext : List Char) (dirOpt : Option (List Char))
    (db : List Char) (target : List Char) :
    Nat → List Char → List Char × Nat
  | 0, cs => (cs, 0)
  | _ + 1, [] => ([], 0)
  | fuel + 1, c :: cs =>
    match matchEqQuoteHead "FILENAME".data (c :: cs) with
    | some (g1, r1) =>
      match scanLazyExt ext r1 with
      | some (g2, q, rest) =>
        match dirOpt with
        | none =>
          let r := subFilenameGo ext dirOpt db target fuel rest
          (g1 ++ g2 ++ q :: r.1, r.2)
        | some d =>
          let r := subFilenameGo ext dirOpt db target fuel rest
          (g1 ++ d ++ db ++ target ++ q :: r.1, r.2 + 1)
      | none =>
        let r := subFilenameGo ext dirOpt db target fuel cs
        (c :: r.1, r.2)
    | none =>
      let r := subFilenameGo ext dirOpt db target fuel cs
      (c :: r.1, r.2)

/-- The lazy group `([^'\"\\]*?)(_?Data)` followed by a quote, for
`NAME_DATA_RE`/`NAME_LOG_RE`: the shortest quote-and-backslash-free prefix
followed by an optional underscore, the suffix (case-insensitively) and a
quote.  Returns (group 2, group 3, closing quote, rest). -/
def scanLazyName (suffix : List Char) :
    List Char → Option (List Char × List Char × Char × List Char)
  | [] => none
  | c :: cs =>
    let extend : Option (List Char × List Char × Char × List Char) :=
      if isQuoteChar c || c = '\\' then none
      else (scanLazyName suffix cs).map fun p => (c :: p.1, p.2.1, p.2.2.1, p.2.2.2)
    if c = '_' then
      match matchCIToken suffix cs with
      | some (schars, q :: rest) =>
        if isQuoteChar q then some ([], '_' :: schars, q, rest) else extend
      | _ => extend
    else
      match matchCIToken suffix (c :: cs) with
      | some (schars, q :: rest) =>
        if isQuoteChar q then some ([], schars, q, rest) else extend
      | _ => extend

/-- Worker for the `NAME_DATA_RE`/`NAME_LOG_RE` substitutions: rewrite the
name stem to `db ++ newStem`, unconditionally. -/
def subNameStemGo (suffix : List Char) (db : List Char) (newStem : List Char) :
    Nat → List Char → List Char × Nat
  | 0, cs => (cs, 0)
  | _ + 1, [] => ([], 0)
  | fuel + 1, c :: cs =>
    match matchEqQuoteHead "NAME".data (c :: cs) with
    | some (g1, r1) =>
      match scanLazyName suffix r1 with
      | some (_, _, q, rest) =>
        let r := subNameStemGo suffix db newStem fuel rest
        (g1 ++ db ++ newStem ++ q :: r.1, r.2 + 1)
      | none =>
        let r := subNameStemGo suffix db newStem fuel cs
        (c :: r.1, r.2)
    | none =>
      let r := subNameStemGo suffix db newStem fuel cs
      (c :: r.1, r.2)

/-- `_rewrite_file_paths_in_sql_text`: normalize the directories, rewrite
`FILENAME` clauses (only with a configured directory), then rewrite
`NAME = '..._Data'` / `'..._Log'` stems unconditionally.  Returns the new
text, the path-rewrite count and the name-rewrite count. -/
def rewrite_file_paths_in_sql_text (sql : String) (dbName : String)
    (mdfDir ldfDir : Option String) : String × Nat × Nat :=
  let db := dbName.data
  let mdfN := normDir mdfDir
  let ldfN := match normDir ldfDir with
    | some d => some d
    | none => mdfN
  let m := subFilenameGo ".mdf".data (mdfN.map String.data) db "_Data.mdf".data
    sql.data.length sql.data
  let l := subFilenameGo ".ldf".data (ldfN.map String.data) db "_Log.ldf".data
    m.1.length m.1
  let nd := subNameStemGo "Data".data db "_Data".data l.1.length l.1
  let nl := subNameStemGo "Log".data db "_Log".data nd.1.length nd.1
  (String.mk nl.1, m.2 + l.2, nd.2 + nl.2)

/-! ### `CREATE DATABASE` detection and script ordering -/

/-- Generic regex-style search: does `f` match at some position whose
preceding character admits a `\b` before a word character. -/
def searchGo (f : List Char → Bool) : Option Char → List Char → Bool
  | _, [] => false
  | prev, c :: cs => (boundaryBefore prev && f (c :: cs)) || searchGo f (some c) cs

/-- Match `CREATE\s+DATABASE\b` at the head (boundary before handled by
`searchGo`). -/
def matchCreateDbAt (cs : List Char) : Bool :=
  match matchTokensSeq ["CREATE".data, "DATABASE".data] cs with
  | some (_, rest) =>
    match rest with
    | [] => true
    | c :: _ => !isWordChar c
  | none => false

/-- `_script_contains_create_db` on the text of the script
(`CREATE_DB_RE.search`). -/
def scriptContainsCreateDb (txt : String) : Bool :=
  searchGo matchCreateDbAt none txt.data

/-- `NUM_RE.search`: the first maximal run of digits in the filename. -/
def firstDigitRun : List Char → Option (List Char)
  | [] => none
  | c :: cs =>
    if isAsciiDigit c then some (c :: cs.takeWhile isAsciiDigit)
    else firstDigitRun cs

/-- `int` on a run of ASCII digits. -/
def digitsToNat (ds : List Char) : Nat :=
  ds.foldl (fun n c => n * 10 + (c.toNat - 48)) 0

/-- The sort key of `ordenar_scripts`: the value of the first digit run
(the sentinel `10 ^ 9` when there is none), then the lowercased filename. -/
def scriptOrderKey (name : String) : Nat × String :=
  (match firstDigitRun name.data with
   | some ds => digitsToNat ds
   | none => 10 ^ 9,
   String.mk (name.data.map Char.toLower))

/-- Lexicographic comparison of sort keys (Python tuple comparison). -/
def scriptKeyLe (a b : String) : Prop :=
  (scriptOrderKey a).1 < (scriptOrderKey b).1 ∨
    ((scriptOrderKey a).1 = (scriptOrderKey b).1 ∧
      (scriptOrderKey a).2 ≤ (scriptOrderKey b).2)

instance : DecidableRel scriptKeyLe := fun a b => by
  unfold scriptKeyLe
  infer_instance

instance : IsTotal String scriptKeyLe := by
  constructor
  intro a b
  unfold scriptKeyLe
  rcases Nat.lt_trichotomy (scriptOrderKey a).1 (scriptOrderKey b).1 with h | h | h
  · exact Or.inl (Or.inl h)
  · rcases le_total (scriptOrderKey a).2 (scriptOrderKey b).2 with h2 | h2
    · exact Or.inl (Or.inr ⟨h, h2⟩)
    · exact Or.inr (Or.inr ⟨h.symm, h2⟩)
  · exact Or.inr (Or.inl h)

instance : IsTrans String scriptKeyLe := by
  constructor
  intro a b c hab hbc
  unfold scriptKeyLe at *
  rcases hab with h1 | ⟨h1, h1s⟩
  · rcases hbc with h2 | ⟨h2, _⟩
    · exact Or.inl (h1.trans h2)
    · exact Or.inl (h2 ▸ h1)
  · rcases hbc with h2 | ⟨h2, h2s⟩
    · exact Or.inl (h1 ▸ h2)
    · exact Or.inr ⟨h1.trans h2, le_trans h1s h2s⟩

/-- `ordenar_scripts`: Python `sorted` is a stable sort; for the total
preorder `scriptKeyLe` every stable sort produces the same output, so
insertion sort models it exactly. -/
def ordenar_scripts (scripts : List String) : List String :=
  List.insertionSort scriptKeyLe scripts

/-! ### User customization (`_customize_two_users_sql_text`) -/

/-- One application-user pair; `none` models an absent (`None`) value. -/
abbrev UserPair := Option String × Option String

/-- A name token `[^\]\s]+`. -/
def matchNameTok (cs : List Char) : Option (List Char × List Char) :=
  let nm := cs.takeWhile fun c => c ≠ ']' && !isPyWhitespace c
  if nm.isEmpty then none else some (nm, cs.drop nm.length)

/-- `GO\b` (case-insensitive) right after the newline of a block terminator. -/
def isGoHere : List Char → Bool
  | g :: o :: rest =>
    (g = 'G' || g = 'g') && (o = 'O' || o = 'o') &&
      (match rest with
       | [] => true
       | c :: _ => !isWordChar c)
  | _ => false

/-- The lookahead terminator `(?=(;|\r?\nGO\b|\Z))` of the block regexes. -/
def isBlockTerminator : List Char → Bool
  | [] => true
  | ';' :: _ => true
  | '\r' :: '\n' :: rest => isGoHere rest
  | '\n' :: rest => isGoHere rest
  | _ => false

/-- The lazy DOTALL body `(?P<body>.*?)` up to the terminator lookahead:
returns (body, rest starting at the terminator). -/
def scanBlockBody : List Char → List Char × List Char
  | [] => ([], [])
  | c :: cs =>
    if isBlockTerminator (c :: cs) then ([], c :: cs)
    else
      let r := scanBlockBody cs
      (c :: r.1, r.2)

/-- A match of `CREATE_LOGIN_BLOCK`. -/
structure LoginBlock where
  head : List Char
  name : List Char
  mid : List Char
  body : List Char
  rest : List Char

/-- `(?P<mid>\]?\s+WITH\b)`. -/
def tryMatchLoginMid (cs : List Char) : Option (List Char × List Char) :=
  let br : List Char × List Char :=
    match cs with
    | ']' :: t => ([']'], t)
    | _ => ([], cs)
  match matchWsPlus br.2 with
  | none => none
  | some (w, r2) =>
    match matchCIToken "WITH".data r2 with
    | some (wchars, r3) =>
      match r3 with
      | [] => some (br.1 ++ w ++ wchars, r3)
      | c :: _ => if isWordChar c then none else some (br.1 ++ w ++ wchars, r3)
    | none => none

/-- Match `CREATE_LOGIN_BLOCK` at the head of `cs` (the boundary before
`CREATE` is checked by the caller).  The optional opening bracket is tried
greedily with the regex-backtracking fallback of not consuming it. -/
def tryMatchLoginBlock (cs : List Char) : Option LoginBlock := do
  let p ← matchTokensSeq ["CREATE".data, "LOGIN".data] cs
  let w ← matchWsPlus p.2
  let headBase := p.1 ++ w.1
  let withBracket : Option LoginBlock :=
    match w.2 with
    | '[' :: r1 => do
      let nm ← matchNameTok r1
      let mid ← tryMatchLoginMid nm.2
      let b := scanBlockBody mid.2
      some ⟨headBase ++ ['['], nm.1, mid.1, b.1, b.2⟩
    | _ => none
  match withBracket with
  | some blk => some blk
  | none => do
    let nm ← matchNameTok w.2
    let mid ← tryMatchLoginMid nm.2
    let b := scanBlockBody mid.2
    some ⟨headBase, nm.1, mid.1, b.1, b.2⟩

/-- A match of `CREATE_USER_BLOCK`. -/
structure UserBlock where
  head : List Char
  uname : List Char
  endBr : List Char
  body : List Char
  rest : List Char

/-- Match `CREATE_USER_BLOCK` at the head of `cs`. -/
def tryMatchUserBlock (cs : List Char) : Option UserBlock := do
  let p ← matchTokensSeq ["CREATE".data, "USER".data] cs
  let w ← matchWsPlus p.2
  let headBase := p.1 ++ w.1
  let mkBlk := fun (head : List Char) (nm : List Char × List Char) =>
    let endBr : List Char × List Char :=
      match nm.2 with
      | ']' :: t => ([']'], t)
      | _ => ([], nm.2)
    let b := scanBlockBody endBr.2
    UserBlock.mk head nm.1 endBr.1 b.1 b.2
  let withBracket : Option UserBlock :=
    match w.2 with
    | '[' :: r1 => (matchNameTok r1).map fun nm => mkBlk (headBase ++ ['[']) nm
    | _ => none
  match withBracket with
  | some blk => some blk
  | none => (matchNameTok w.2).map fun nm => mkBlk headBase nm

/-- Match `RE_LOGIN_PWD` = `(\bPASSWORD\s*=\s*N?['\"])([^'\"\r\n]*)(['\"])` at
the head of `cs`; returns (group 1, group 2, closing quote, rest). -/
def tryMatchPassword (cs : List Char) :
    Option (List Char × List Char × Char × List Char) := do
  let p ← matchEqQuoteHead "PASSWORD".data cs
  let g2 := p.2.takeWhile fun c => !(isQuoteChar c || c = '\r' || c = '\n')
  match p.2.drop g2.length with
  | q :: rest => if isQuoteChar q then some (p.1, g2, q, rest) else none
  | [] => none

/-- `RE_LOGIN_PWD.subn(r"\1<new>\3", body)`. -/
def subPasswordGo (newPass : List Char) :
    Nat → Option Char → List Char → List Char × Nat
  | 0, _, cs => (cs, 0)
  | _ + 1, _, [] => ([], 0)
  | fuel + 1, prev, c :: cs =>
    match boundaryBefore prev, tryMatchPassword (c :: cs) with
    | true, some (g1, _, q2, rest) =>
      let r := subPasswordGo newPass fuel (some q2) rest
      (g1 ++ newPass ++ q2 :: r.1, r.2 + 1)
    | _, _ =>
      let r := subPasswordGo newPass fuel (some c) cs
      (c :: r.1, r.2)

/-- Match `RE_FOR_LOGIN` = `(\bFOR\s+LOGIN\s+\[?)([^\]\s]+)(\]?)` at the head;
returns (group 1, group 2, group 3, rest). -/
def tryMatchForLogin (cs : List Char) :
    Option (List Char × List Char × List Char × List Char) := do
  let p ← matchTokensSeq ["FOR".data, "LOGIN".data] cs
  let w ← matchWsPlus p.2
  let headBase := p.1 ++ w.1
  let finish := fun (head : List Char) (nm : List Char × List Char) =>
    let g3 : List Char × List Char :=
      match nm.2 with
      | ']' :: t => ([']'], t)
      | _ => ([], nm.2)
    (head, nm.1, g3.1, g3.2)
  let withBracket :=
    match w.2 with
    | '[' :: r1 => (matchNameTok r1).map fun nm => finish (headBase ++ ['[']) nm
    | _ => none
  match withBracket with
  | some r => some r
  | none => (matchNameTok w.2).map fun nm => finish headBase nm

/-- `RE_FOR_LOGIN.subn(rf"\1{name}\3", body)`. -/
def subForLoginGo (newName : List Char) :
    Nat → Option Char → List Char → List Char × Nat
  | 0, _, cs => (cs, 0)
  | _ + 1, _, [] => ([], 0)
  | fuel + 1, prev, c :: cs =>
    match boundaryBefore prev, tryMatchForLogin (c :: cs) with
    | true, some (g1, nm, g3, rest) =>
      let prevNew : Option Char :=
        match g3 with
        | [] => nm.getLast?
        | _ => some ']'
      let r := subForLoginGo newName fuel prevNew rest
      (g1 ++ newName ++ g3 ++ r.1, r.2 + 1)
    | _, _ =>
      let r := subForLoginGo newName fuel (some c) cs
      (c :: r.1, r.2)

/-- Match a placeholder pattern (double brace, `\s*`, the key
case-insensitively, `\s*`, double closing brace); returns the rest. -/
def tryMatchPlaceholder (key : List Char) (cs : List Char) : Option (List Char) :=
  match cs with
  | '{' :: '{' :: r1 =>
    let w1 := r1.takeWhile isPyWhitespace
    match matchCIToken key (r1.drop w1.length) with
    | some (_, r2) =>
      let w2 := r2.takeWhile isPyWhitespace
      match r2.drop w2.length with
      | '}' :: '}' :: rest => some rest
      | _ => none
    | none => none
  | _ => none

/-- Substitute all occurrences of a placeholder; the flag reports whether any
occurrence was found (`search`). -/
def subPlaceholderGo (key rep : List Char) : Nat → List Char → List Char × Bool
  | 0, cs => (cs, false)
  | _ + 1, [] => ([], false)
  | fuel + 1, c :: cs =>
    match tryMatchPlaceholder key (c :: cs) with
    | some rest =>
      let r := subPlaceholderGo key rep fuel rest
      (rep ++ r.1, true)
    | none =>
      let r := subPlaceholderGo key rep fuel cs
      (c :: r.1, r.2)

/-- One placeholder step of `_customize_two_users_sql_text`:
`if value and PATTERN.search(sql): sql = PATTERN.sub(value, sql); changes += 1`. -/
def placeholderStep (key : String) (v : Option String) (st : List Char × Nat) :
    List Char × Nat :=
  if truthy v then
    let r := subPlaceholderGo key.data ((v.getD "").data) st.1.length st.1
    if r.2 then (r.1, st.2 + 1) else st
  else st

/-- `CREATE_LOGIN_BLOCK.sub(sub_login, sql)` with the mutable `idx` threading
of the source: the first matches are rewritten with the supplied user pairs,
later matches are kept verbatim. -/
def subLoginBlocksGo (users : List UserPair) :
    Nat → Nat → Option Char → List Char → List Char × Nat
  | 0, _, _, cs => (cs, 0)
  | _ + 1, _, _, [] => ([], 0)
  | fuel + 1, idx, prev, c :: cs =>
    match boundaryBefore prev, tryMatchLoginBlock (c :: cs) with
    | true, some blk =>
      let prevNew := (blk.head ++ blk.name ++ blk.mid ++ blk.body).getLast?
      match users.get? idx with
      | some (nameNew, passNew) =>
        let bodyR :=
          if truthy passNew then
            subPasswordGo ((passNew.getD "").data) blk.body.length none blk.body
          else (blk.body, 0)
        let nameOut := if truthy nameNew then (nameNew.getD "").data else blk.name
        let nameChange := if truthy nameNew then 1 else 0
        let r := subLoginBlocksGo users fuel (idx + 1) prevNew blk.rest
        (blk.head ++ nameOut ++ blk.mid ++ bodyR.1 ++ r.1,
         bodyR.2 + nameChange + r.2)
      | none =>
        let r := subLoginBlocksGo users fuel idx prevNew blk.rest
        (blk.head ++ blk.name ++ blk.mid ++ blk.body ++ r.1, r.2)
    | _, _ =>
      let r := subLoginBlocksGo users fuel idx (some c) cs
      (c :: r.1, r.2)

/-- `CREATE_USER_BLOCK.sub(sub_user, sql)` with the `idx_user` threading. -/
def subUserBlocksGo (users : List UserPair) :
    Nat → Nat → Option Char → List Char → List Char × Nat
  | 0, _, _, cs => (cs, 0)
  | _ + 1, _, _, [] => ([], 0)
  | fuel + 1, idx, prev, c :: cs =>
    match boundaryBefore prev, tryMatchUserBlock (c :: cs) with
    | true, some blk =>
      let prevNew := (blk.head ++ blk.uname ++ blk.endBr ++ blk.body).getLast?
      match users.get? idx with
      | some (nameNew, _) =>
        if truthy nameNew then
          let nn := (nameNew.getD "").data
          let bodyR := subForLoginGo nn blk.body.length none blk.body
          let r := subUserBlocksGo users fuel (idx + 1) prevNew blk.rest
          (blk.head ++ nn ++ blk.endBr ++ bodyR.1 ++ r.1, 1 + bodyR.2 + r.2)
        else
          let r := subUserBlocksGo users fuel (idx + 1) prevNew blk.rest
          (blk.head ++ blk.uname ++ blk.endBr ++ blk.body ++ r.1, r.2)
      | none =>
        let r := subUserBlocksGo users fuel idx prevNew blk.rest
        (blk.head ++ blk.uname ++ blk.endBr ++ blk.body ++ r.1, r.2)
    | _, _ =>
      let r := subUserBlocksGo users fuel idx (some c) cs
      (c :: r.1, r.2)

/-- `_customize_two_users_sql_text`. -/
def customize_two_users_sql_text (sql : String) (users : List UserPair) :
    String × Nat :=
  match users with
  | [] => (sql, 0)
  | (u1, p1) :: restUsers =>
    let st1 := placeholderStep "APP_USER" u1 (sql.data, 0)
    let st2 := placeholderStep "APP_PASS" p1 st1
    let st3 :=
      match restUsers with
      | (u2, p2) :: _ => placeholderStep "APP_PASS2" p2 (placeholderStep "APP_USER2" u2 st2)
      | [] => st2
    let lg := subLoginBlocksGo ((u1, p1) :: restUsers) st3.1.length 0 none st3.1
    let ur := subUserBlocksGo ((u1, p1) :: restUsers) lg.1.length 0 none lg.1
    (String.mk ur.1, st3.2 + lg.2 + ur.2)

/-- Case-insensitive substring search (`re.search` of a literal word). -/
def containsCIGo (needle : List Char) : List Char → Bool
  | [] => needle.isEmpty
  | c :: cs => (matchCIToken needle (c :: cs)).isSome || containsCIGo needle cs

/-- The `needs` test of `_customize_users_in_file`: a login block, a user
block, or a filename matching `user|usuarios` (case-insensitive). -/
def customizeNeeds (fileName : String) (txt : String) : Bool :=
  searchGo (fun cs => (tryMatchLoginBlock cs).isSome) none txt.data ||
  searchGo (fun cs => (tryMatchUserBlock cs).isSome) none txt.data ||
  containsCIGo "user".data fileName.data ||
  containsCIGo "usuarios".data fileName.data

/-! ### Filesystem model

Original scripts live at `FPath.src name`; `tempfile.mkdtemp` always returns a
fresh private directory, modelled by the structurally distinct constructor
`FPath.tmp dir name` where `dir` is drawn from a per-run allocator.  A write
shadows earlier entries; `rmtree` on a temp directory drops all its entries. -/

inductive FPath
  | src (name : String)
  | tmp (dir : Nat) (name : String)
deriving DecidableEq, Repr

abbrev FS := List (FPath × String)

def fsRead : FS → FPath → Option String
  | [], _ => none
  | e :: t, p => if e.1 = p then some e.2 else fsRead t p

def fsWrite (fs : FS) (p : FPath) (v : String) : FS := (p, v) :: fs

/-- `shutil.rmtree` of one temp directory. -/
def fsRemoveDir (fs : FS) (d : Nat) : FS :=
  fs.filter fun e =>
    match e.1 with
    | .tmp dd _ => dd ≠ d
    | .src _ => true

/-! ### File-level text transforms (each reads a file, transforms its text and
writes back only when something changed, mirroring the source functions) -/

/-- `reemplazar_en_archivo` on the content: literal replacements, in token
order. -/
def applyReplacements (content : String) (reps : List (String × String)) : String :=
  reps.foldl (fun acc kv => String.mk (pyReplace acc.data kv.1.data kv.2.data)) content

/-- `reemplazar_en_archivo`: missing file is only logged; the file is written
only when the content changed. -/
def reemplazar_en_archivo (fs : FS) (ruta : FPath) (reps : List (String × String)) : FS :=
  match fsRead fs ruta with
  | none => fs
  | some content =>
    let c2 := applyReplacements content reps
    if c2 ≠ content then fsWrite fs ruta c2 else fs

/-- `sanitize_sql_file`: at level `none` it returns before reading any text;
otherwise the file is rewritten only when `changes > 0`. -/
def sanitize_sql_file (nfkc : String → String) (fs : FS) (path : FPath)
    (level : SanLevel) : FS :=
  match level with
  | .nolevel => fs
  | _ =>
    match fsRead fs path with
    | none => fs
    | some txt =>
      let r := sanitizeFileModel nfkc level txt
      if r.1 ≠ txt then fsWrite fs path r.1 else fs

/-- `_customize_users_in_file` on the content. -/
def customizeFileText (fileName : String) (users : List UserPair) (txt : String) : String :=
  if customizeNeeds fileName txt then
    let r := customize_two_users_sql_text txt users
    if r.2 > 0 then r.1 else txt
  else txt

/-- `_customize_users_in_file`. -/
def customize_users_in_file (fs : FS) (path : FPath) (fileName : String)
    (users : List UserPair) : FS :=
  match fsRead fs path with
  | none => fs
  | some txt =>
    if customizeNeeds fileName txt then
      let r := customize_two_users_sql_text txt users
      if r.2 > 0 then fsWrite fs path r.1 else fs
    else fs

/-- `replace_db_brackets_in_file` on the content. -/
def replaceDbBracketsText (dbName : String) (txt : String) : String :=
  let r := replace_db_name_in_sql_text txt dbName
  if r.2 > 0 then r.1 else txt

/-- `replace_db_brackets_in_file`. -/
def replace_db_brackets_in_file (fs : FS) (path : FPath) (dbName : String) : FS :=
  match fsRead fs path with
  | none => fs
  | some txt =>
    let r := replace_db_name_in_sql_text txt dbName
    if r.2 > 0 then fsWrite fs path r.1 else fs

/-- `_rewrite_file_paths_in_file` on the content (the guard on the raw,
pre-normalization directories included). -/
def rewriteFilePathsText (dbName : String) (mdfDir ldfDir : Option String)
    (txt : String) : String :=
  if !(truthy mdfDir || truthy ldfDir) then txt
  else
    let r := rewrite_file_paths_in_sql_text txt dbName mdfDir ldfDir
    if r.2.1 > 0 || r.2.2 > 0 then r.1 else txt

/-- `_rewrite_file_paths_in_file`: returns immediately when neither directory
is configured. -/
def rewrite_file_paths_in_file (fs : FS) (path : FPath) (dbName : String)
    (mdfDir ldfDir : Option String) : FS :=
  if !(truthy mdfDir || truthy ldfDir) then fs
  else
    match fsRead fs path with
    | none => fs
    | some txt =>
      let r := rewrite_file_paths_in_sql_text txt dbName mdfDir ldfDir
      if r.2.1 > 0 || r.2.2 > 0 then fsWrite fs path r.1 else fs

/-! ### Configuration and staging -/

/-- Sanitization scope (`sanitize_scope` form field). -/
inductive SanScope
  | noscope
  | allfiles
  | matching
deriving DecidableEq, Repr

/-- The configuration record read from the form by `run_backend_installation`.
`sanitizeMatch` is the compiled `sanitize_match` regex as a predicate on the
filename (an uncompilable pattern is the constantly-false predicate). -/
structure Config where
  dbName : String
  tokens : List (String × String)
  users : List UserPair
  sanitizeScope : SanScope
  sanitizeLevel : SanLevel
  sanitizeMatch : String → Bool
  sanitizeReport : Bool
  retries : Nat
  dryRun : Bool

/-- `tokens.get("MDF_DIR")` / `tokens.get("LDF_DIR")`. -/
def tokensGet (tokens : List (String × String)) (key : String) : Option String :=
  (tokens.find? fun kv => kv.1 = key).map fun kv => kv.2

/-- The per-script `do_sanitize` decision of the orchestrator loop. -/
def doSanitizeFor (cfg : Config) (name : String) : Bool :=
  if cfg.sanitizeLevel != .nolevel && cfg.sanitizeScope != .noscope then
    match cfg.sanitizeScope with
    | .allfiles => true
    | .matching => cfg.sanitizeMatch name
    | .noscope => false
  else false

/-- The pure text pipeline of `_prepare_script_text_for_exec`, applied to the
original content: token replacement (only when the original script contains
`CREATE DATABASE` and the token map is nonempty), optional sanitization, user
customization, bracketed-database rewrite, MDF/LDF rewrite. -/
def stageText (nfkc : String → String) (cfg : Config) (doSan : Bool)
    (name : String) (orig : String) : String :=
  let t0 := orig
  let t1 :=
    if !cfg.tokens.isEmpty && scriptContainsCreateDb orig then
      applyReplacements t0 cfg.tokens
    else t0
  let t2 := if doSan then (sanitizeFileModel nfkc cfg.sanitizeLevel t1).1 else t1
  let t3 := customizeFileText name cfg.users t2
  let t4 := replaceDbBracketsText cfg.dbName t3
  rewriteFilePathsText cfg.dbName (tokensGet cfg.tokens "MDF_DIR")
    (tokensGet cfg.tokens "LDF_DIR") t4

/-- Result of `_prepare_script_text_for_exec`. -/
structure StageOut where
  fs : FS
  alloc : Nat
  stagedDir : Nat
  stagedPath : FPath
  finalText : String

/-- `_prepare_script_text_for_exec`: copy the original into a fresh temp
directory and apply the transforms to the copy; the final text is read back
from the copy. -/
def prepare_script_text_for_exec (nfkc : String → String) (cfg : Config)
    (doSan : Bool) (fs : FS) (alloc : Nat) (name : String) : StageOut :=
  let orig := (fsRead fs (.src name)).getD ""
  let staged : FPath := .tmp alloc name
  let fs1 := fsWrite fs staged orig
  let fs2 :=
    if !cfg.tokens.isEmpty && scriptContainsCreateDb orig then
      reemplazar_en_archivo fs1 staged cfg.tokens
    else fs1
  let fs3 := if doSan then sanitize_sql_file nfkc fs2 staged cfg.sanitizeLevel else fs2
  let fs4 := customize_users_in_file fs3 staged name cfg.users
  let fs5 := replace_db_brackets_in_file fs4 staged cfg.dbName
  let fs6 := rewrite_file_paths_in_file fs5 staged cfg.dbName
    (tokensGet cfg.tokens "MDF_DIR") (tokensGet cfg.tokens "LDF_DIR")
  ⟨fs6, alloc + 1, alloc, staged, (fsRead fs6 staged).getD ""⟩

/-! ### History ledger and session wrapper -/

/-- One row of `__eflow_installer_history`, restricted to the fields the
orchestration logic reads (timestamps and durations are wall-clock data and
are not modelled; the ignored insert result and the unique index are noted in
the header). -/
structure HistoryRecord where
  scriptName : String
  scriptHash : String
  success : Bool
deriving DecidableEq, Repr

/-- `_get_applied_hashes`: the hashes of rows with `success = 1` (the stdout
parsing keeps exactly the 64-character digest lines; `CHAR(64)` digests always
have length 64). -/
def get_applied_hashes (ledger : List HistoryRecord) : List String :=
  ((ledger.filter fun r => r.success).map fun r => r.scriptHash).filter
    fun h => h.length == 64

/-- The session preamble of `_make_session_wrapped_file`. -/
def sessionPreamble (verbose : Bool) : String :=
  "SET NOCOUNT ON;\r\nSET XACT_ABORT ON;\r\nSET ANSI_WARNINGS ON;\r\n" ++
    (if verbose then
      "BEGIN TRY DBCC TRACEON(460) WITH NO_INFOMSGS; END TRY BEGIN CATCH END CATCH;\r\n"
     else "")

/-! ### The orchestrator (`run_backend_installation`)

The external SQL executor enters as `exec : String → Nat → Nat`, giving the
exit status of the attempt with the submitted script text and the 1-based
attempt number (0 = success; `_sqlcmd` maps a timeout to the synthetic
status 124, which is just another nonzero value here).  Connection-database
selection and user pre-provisioning (backend.py lines 747-763) act only on the
external server and affect neither staging, hashing, the ledger nor the
filesystem; they are not modelled.  Logging and the optional trailing `.BAT`
step are likewise external. -/

/-- Per-script verdict. -/
inductive Outcome
  | skipped
  | dryRun
  | succeeded (attempts : Nat)
  | failed (attempts : Nat)
deriving DecidableEq, Repr

/-- What the run records about one processed script. -/
structure ScriptResult where
  name : String
  stagedText : String
  scriptHash : String
  outcome : Outcome
  submitted : Option String
deriving DecidableEq, Repr

/-- Mutable state threaded through the script loop. -/
structure RunState where
  fs : FS
  alloc : Nat
  ledger : List HistoryRecord
deriving Repr

/-- The retry loop: `attempt = 0; while attempt <= retries: attempt += 1; ...`
with fuel `retries + 1`.  Returns the number of attempts made and whether the
last one succeeded. -/
def runAttemptsGo (exec : String → Nat → Nat) (wrapped : String) :
    Nat → Nat → Nat × Bool
  | 0, attempt => (attempt, false)
  | fuel + 1, attempt =>
    if exec wrapped (attempt + 1) = 0 then (attempt + 1, true)
    else runAttemptsGo exec wrapped fuel (attempt + 1)

/-- Processing of one script inside the loop of `run_backend_installation`:
stage, hash, skip/dry-run checks, session wrapping, retry loop, history
insert, staging cleanup, and the terminal-failure abort.  The returned flag
reports the `RuntimeError` abort. -/
def processScript (nfkc hash : String → String) (exec : String → Nat → Nat)
    (cfg : Config) (applied : List String) (verbose : Bool)
    (st : RunState) (name : String) : ScriptResult × RunState × Bool :=
  let doSan := doSanitizeFor cfg name
  let out := prepare_script_text_for_exec nfkc cfg doSan st.fs st.alloc name
  let h := hash out.finalText
  if !applied.isEmpty && applied.contains h then
    (⟨name, out.finalText, h, .skipped, none⟩,
     ⟨fsRemoveDir out.fs out.stagedDir, out.alloc, st.ledger⟩, false)
  else if cfg.dryRun then
    (⟨name, out.finalText, h, .dryRun, none⟩,
     ⟨fsRemoveDir out.fs out.stagedDir, out.alloc, st.ledger⟩, false)
  else
    let wrappedDir := out.alloc
    let wrappedPath : FPath := .tmp wrappedDir ("wrapped_" ++ name)
    let wrappedText :=
      sessionPreamble verbose ++ (fsRead out.fs out.stagedPath).getD ""
    let fsW := fsWrite out.fs wrappedPath wrappedText
    let ar := runAttemptsGo exec wrappedText (cfg.retries + 1) 0
    let ledger1 :=
      if ar.2 then st.ledger ++ [⟨name, h, true⟩] else st.ledger
    let fsC := fsRemoveDir (fsRemoveDir fsW out.stagedDir) wrappedDir
    -- `last_err` is truthy iff some attempt failed
    let lastErrSet := !ar.2 || ar.1 ≥ 2
    let abortFire := ar.1 > cfg.retries && lastErrSet
    let ledger2 :=
      if abortFire then ledger1 ++ [⟨name, h, false⟩] else ledger1
    (⟨name, out.finalText, h,
      (if ar.2 then .succeeded ar.1 else .failed ar.1), some wrappedText⟩,
     ⟨fsC, out.alloc + 1, ledger2⟩, abortFire)

/-- The script loop: process in order, stopping at the first abort. -/
def runScripts (nfkc hash : String → String) (exec : String → Nat → Nat)
    (cfg : Config) (applied : List String) (verbose : Bool) :
    RunState → List String → List ScriptResult × RunState × Bool
  | st, [] => ([], st, true)
  | st, name :: rest =>
    let r := processScript nfkc hash exec cfg applied verbose st name
    if r.2.2 then ([r.1], r.2.1, false)
    else
      let rs := runScripts nfkc hash exec cfg applied verbose r.2.1 rest
      (r.1 :: rs.1, rs.2.1, rs.2.2)

/-- Overall run result. -/
structure RunOutput where
  results : List ScriptResult
  state : RunState
  ok : Bool

/-- `run_backend_installation`, restricted to the script-orchestration core:
sort the scripts, read the applied hashes (empty when the target database does
not yet exist, exactly as the source falls back to an empty set), then run the
loop.  An empty script list raises before any execution. -/
def run_backend_installation (nfkc hash : String → String)
    (exec : String → Nat → Nat) (cfg : Config) (dbExists : Bool)
    (verbose : Bool) (ledger0 : List HistoryRecord) (fs0 : FS)
    (names : List String) : RunOutput :=
  if names.isEmpty then ⟨[], ⟨fs0, 0, ledger0⟩, false⟩
  else
    let scripts := ordenar_scripts names
    let applied := if dbExists then get_applied_hashes ledger0 else []
    let r := runScripts nfkc hash exec cfg applied verbose ⟨fs0, 0, ledger0⟩ scripts
    ⟨r.1, r.2.1, r.2.2⟩

/-! ### Predicates used by the theorems -/

/-- Printable ASCII or a CR/LF character. -/
def isPrintableOrCrlf (c : Char) : Bool :=
  isPrintableAscii c || c = '\r' || c = '\n'

/-- Every line ending is a proper CRLF pair: no lone CR, no lone LF. -/
def crlfWellFormed : List Char → Bool
  | [] => true
  | [c] => !(c = '\r' || c = '\n')
  | c :: d :: t =>
    if c = '\r' && d = '\n' then crlfWellFormed t
    else if c = '\r' || c = '\n' then false
    else crlfWellFormed (d :: t)

/-- The text consists only of printable ASCII characters and standard CRLF
line endings. -/
def cleanAsciiCrlf (txt : String) : Prop :=
  (∀ c ∈ txt.data, isPrintableOrCrlf c = true) ∧ crlfWellFormed txt.data = true

instance (txt : String) : Decidable (cleanAsciiCrlf txt) := by
  unfold cleanAsciiCrlf
  infer_instance

/-- The glued-keyword substitution finds nothing to fix in the text. -/
def noGluedKeyword (txt : String) : Prop := kwFixApply txt.data = txt.data

instance (txt : String) : Decidable (noGluedKeyword txt) := by
  unfold noGluedKeyword
  infer_instance

/-- The reserved identifiers in their source spelling together with their
all-uppercase and all-lowercase casings (the comparison of `_is_reserved` is
case-insensitive). -/
def reservedCaseVariants : List String :=
  reservedBracketNames ++
    reservedBracketNames.map (fun s => String.mk (s.data.map Char.toUpper)) ++
    reservedBracketNames.map (fun s => String.mk (s.data.map Char.toLower))

/-- The staged (final, pre-wrapper) text of a script, as a function of the
configuration and the original content stored at `FPath.src name`. -/
def stagedOf (nfkc : String → String) (cfg : Config) (fs0 : FS) (name : String) :
    String :=
  stageText nfkc cfg (doSanitizeFor cfg name) name ((fsRead fs0 (.src name)).getD "")

/-- The success history record the run writes for a script. -/
def successRecordOf (nfkc hash : String → String) (cfg : Config) (fs0 : FS)
    (name : String) : HistoryRecord :=
  ⟨name, hash (stagedOf nfkc cfg fs0 name), true⟩

/-- Two consecutive runs with the same configuration and scripts: the first
against a fresh target (no database yet, so no applied hashes), the second
against the resulting state (database exists, ledger and filesystem carried
over).  The second run may face an arbitrary executor. -/
def runTwice (nfkc hash : String → String) (exec1 exec2 : String → Nat → Nat)
    (cfg : Config) (verbose : Bool) (ledger0 : List HistoryRecord) (fs0 : FS)
    (names : List String) : RunOutput × RunOutput :=
  let r1 := run_backend_installation nfkc hash exec1 cfg false verbose ledger0 fs0 names
  (r1, run_backend_installation nfkc hash exec2 cfg true verbose
    r1.state.ledger r1.state.fs names)

/-- A sample configuration for concrete witnesses. -/
def sampleCfg : Config :=
  ⟨"DB", [], [], .noscope, .light, fun _ => false, true, 2, false⟩

/-- A sample source filesystem for concrete witnesses. -/
def sampleFs : FS :=
  [(.src "001_a.sql", "SELECT 1;\r\n"), (.src "002_b.sql", "USE [Old]\r\nSELECT 2;\r\n")]

/-- A stand-in digest function whose outputs have length 64. -/
def hash64 : String → String := fun _ => String.mk (List.replicate 64 'a')

/-- An executor whose every attempt succeeds. -/
def execZero : String → Nat → Nat := fun _ _ => 0

/-- An executor whose every attempt fails with exit status 1. -/
def execOne : String → Nat → Nat := fun _ _ => 1

/-! ## Proofs -/

theorem takeWhile_append_drop_length (p : Char → Bool) (l : List Char) :
    l.takeWhile p ++ l.drop (l.takeWhile p).length = l := by
  conv_rhs => rw [← List.take_append_drop (l.takeWhile p).length l]
  congr 1
  exact List.prefix_iff_eq_take.mp (List.takeWhile_prefix p)

theorem sanitize_light_report (nfkc : String → String) (txt : String) :
    (sanitize_sql_text_light nfkc txt).2.2 = scanNonAsciiLines txt := by
  unfold sanitize_sql_text_light
  dsimp only
  split <;> rfl

theorem sanitize_aggressive_report (nfkc : String → String) (txt : String) :
    (sanitize_sql_text_aggressive nfkc txt).2.2 = scanNonAsciiLines txt := by
  unfold sanitize_sql_text_aggressive
  dsimp only
  split <;> rfl

theorem sanitizeFileModel_light_report (nfkc : String → String) (txt : String) :
    (sanitizeFileModel nfkc .light txt).2 = scanNonAsciiLines txt := by
  unfold sanitizeFileModel
  dsimp only
  exact sanitize_light_report nfkc txt

theorem sanitizeFileModel_aggressive_report (nfkc : String → String) (txt : String) :
    (sanitizeFileModel nfkc .aggressive txt).2 = scanNonAsciiLines txt := by
  unfold sanitizeFileModel
  dsimp only
  exact sanitize_aggressive_report nfkc txt

theorem lineExcerpt_length_le (line : List Char) : (lineExcerpt line).length ≤ 160 := by
  unfold lineExcerpt
  split
  · simp [String.length, ‹line.length ≤ 160›]
  · have h : (String.mk (line.take 157)).length ≤ 157 := by
      simp [String.length, List.length_take_le 157 line]
    have h3 : ("..." : String).length = 3 := rfl
    calc (String.mk (line.take 157) ++ "...").length
        = (String.mk (line.take 157)).length + 3 := by rw [String.length_append, h3]
      _ ≤ 160 := by omega

theorem scanNonAsciiLines_excerpt_le (txt : String) :
    ∀ e ∈ scanNonAsciiLines txt, e.2.1.length ≤ 160 := by
  intro e he
  unfold scanNonAsciiLines at he
  rw [List.mem_filterMap] at he
  obtain ⟨p, _, hp⟩ := he
  by_cases hb : (p.2.filter isScanBadChar).isEmpty
  · simp [hb] at hp
  · simp only [hb, Bool.false_eq_true, if_false, Option.some.injEq] at hp
    rw [← hp]
    exact lineExcerpt_length_le p.2

/-- C4, amended: the non-ASCII report is computed on the original text and is
identical under the `light` and `aggressive` levels, with 1-based line
numbers, excerpts of at most 160 characters and hex codepoint lists; but at
level `none` the sanitizer returns before scanning, so no report is produced
there. -/
theorem c4_report_independent_of_cleaning_level (nfkc : String → String) (txt : String) :
    (sanitize_sql_text_light nfkc txt).2.2 = scanNonAsciiLines txt ∧
    (sanitize_sql_text_aggressive nfkc txt).2.2 = scanNonAsciiLines txt ∧
    (sanitizeFileModel nfkc .light txt).2 = scanNonAsciiLines txt ∧
    (sanitizeFileModel nfkc .aggressive txt).2 = scanNonAsciiLines txt ∧
    sanitizeFileModel nfkc .nolevel txt = (txt, []) ∧
    (∀ e ∈ scanNonAsciiLines txt, e.2.1.length ≤ 160) := by
  exact ⟨sanitize_light_report nfkc txt, sanitize_aggressive_report nfkc txt,
    sanitizeFileModel_light_report nfkc txt, sanitizeFileModel_aggressive_report nfkc txt,
    rfl, scanNonAsciiLines_excerpt_le txt⟩

/-- C4, witness: the amended statement at a concrete text with a non-ASCII
character on line 2. -/
theorem c4_report_witness :
    (sanitize_sql_text_light id "ok\r\ncafé").2.2 = scanNonAsciiLines "ok\r\ncafé" ∧
    (sanitize_sql_text_aggressive id "ok\r\ncafé").2.2 = scanNonAsciiLines "ok\r\ncafé" ∧
    (sanitizeFileModel id .light "ok\r\ncafé").2 = scanNonAsciiLines "ok\r\ncafé" ∧
    (sanitizeFileModel id .aggressive "ok\r\ncafé").2 = scanNonAsciiLines "ok\r\ncafé" ∧
    sanitizeFileModel id .nolevel "ok\r\ncafé" = ("ok\r\ncafé", []) ∧
    (∀ e ∈ scanNonAsciiLines "ok\r\ncafé", e.2.1.length ≤ 160) :=
  c4_report_independent_of_cleaning_level id "ok\r\ncafé"

/-- C4, counterexample: the claim says the report is produced even when
`level = none`; but for a text with a non-ASCII character the level-`none`
path of `sanitize_sql_file` returns no report and leaves the file untouched,
while the scan of the same text is nonempty. -/
theorem c4_counterexample :
    (sanitizeFileModel id SanLevel.nolevel "café").2 = [] ∧
    sanitize_sql_file id [(FPath.tmp 0 "a.sql", "café")] (FPath.tmp 0 "a.sql")
      SanLevel.nolevel = [(FPath.tmp 0 "a.sql", "café")] ∧
    scanNonAsciiLines "café" = [(1, "café", ["U+00E9"])] := by
  refine ⟨rfl, rfl, ?_⟩
  decide

/-- C6, counterexample: the sentinel of `ordenar_scripts` is `10 ^ 9`, which
is not larger than every real numeric prefix; a 10-digit prefix exceeds it, so
a digit-less script is NOT placed after every script that has digits. -/
theorem c6_counterexample :
    ordenar_scripts ["9999999999.sql", "setup.sql"] = ["setup.sql", "9999999999.sql"] ∧
    firstDigitRun "9999999999.sql".data ≠ none ∧
    firstDigitRun "setup.sql".data = none ∧
    (scriptOrderKey "setup.sql").1 < (scriptOrderKey "9999999999.sql").1 := by
  decide

/-- C6, amended: `ordenar_scripts` is a permutation of its input, sorted by
the key (value of the first digit run, with sentinel `10 ^ 9` for digit-less
names, tie-broken by the lowercased filename); a digit-less script comes after
every script whose numeric prefix is below `10 ^ 9` (not after every script
with digits, since prefixes of ten or more digits exceed the sentinel); the
concrete four-file example sorts as specified. -/
theorem c6_ordering (l : List String) :
    (ordenar_scripts l).Perm l ∧
    (ordenar_scripts l).Sorted scriptKeyLe ∧
    (∀ a b : String, firstDigitRun b.data = none →
      (scriptOrderKey a).1 < 10 ^ 9 → (scriptOrderKey a).1 < (scriptOrderKey b).1) ∧
    ordenar_scripts ["003_x.sql", "001_a.sql", "002_b.sql", "setup.sql"] =
      ["001_a.sql", "002_b.sql", "003_x.sql", "setup.sql"] := by
  refine ⟨List.perm_insertionSort scriptKeyLe l,
    List.sorted_insertionSort scriptKeyLe l, ?_, by decide⟩
  intro a b hb ha
  have : (scriptOrderKey b).1 = 10 ^ 9 := by
    unfold scriptOrderKey
    rw [hb]
  omega

/-- C6, witness: the amended statement at the concrete example list. -/
theorem c6_ordering_witness :
    (ordenar_scripts ["003_x.sql", "001_a.sql", "002_b.sql", "setup.sql"]).Perm
      ["003_x.sql", "001_a.sql", "002_b.sql", "setup.sql"] ∧
    (ordenar_scripts ["003_x.sql", "001_a.sql", "002_b.sql", "setup.sql"]).Sorted scriptKeyLe ∧
    (∀ a b : String, firstDigitRun b.data = none →
      (scriptOrderKey a).1 < 10 ^ 9 → (scriptOrderKey a).1 < (scriptOrderKey b).1) ∧
    ordenar_scripts ["003_x.sql", "001_a.sql", "002_b.sql", "setup.sql"] =
      ["001_a.sql", "002_b.sql", "003_x.sql", "setup.sql"] :=
  c6_ordering ["003_x.sql", "001_a.sql", "002_b.sql", "setup.sql"]

/-! Decomposition lemmas: a successful match splits the input text. -/

theorem matchCIToken_append (tok : List Char) : ∀ (cs p r : List Char),
    matchCIToken tok cs = some (p, r) → p ++ r = cs := by
  induction tok with
  | nil =>
    intro cs p r h
    simp only [matchCIToken, Option.some.injEq, Prod.mk.injEq] at h
    rw [← h.1, ← h.2]
    rfl
  | cons t ts ih =>
    intro cs p r h
    cases cs with
    | nil => simp [matchCIToken] at h
    | cons c cs2 =>
      simp only [matchCIToken] at h
      split at h
      · cases hm : matchCIToken ts cs2 with
        | none => rw [hm] at h; simp at h
        | some pr =>
          rw [hm] at h
          simp only [Option.map_some', Option.some.injEq, Prod.mk.injEq] at h
          obtain ⟨hp, hr⟩ := h
          subst hp
          subst hr
          have := ih cs2 pr.1 pr.2 (by rw [hm])
          simpa using this
      · simp at h

theorem matchWsPlus_append (cs w r : List Char) (h : matchWsPlus cs = some (w, r)) :
    w ++ r = cs := by
  unfold matchWsPlus at h
  dsimp only at h
  split at h
  · simp at h
  · simp only [Option.some.injEq, Prod.mk.injEq] at h
    rw [← h.1, ← h.2]
    exact takeWhile_append_drop_length isPyWhitespace cs

theorem matchTokensSeq_append : ∀ (toks : List (List Char)) (cs p r : List Char),
    matchTokensSeq toks cs = some (p, r) → p ++ r = cs
  | [], cs, p, r, h => by
    simp only [matchTokensSeq, Option.some.injEq, Prod.mk.injEq] at h
    rw [← h.1, ← h.2]
    rfl
  | [t], cs, p, r, h => matchCIToken_append t cs p r h
  | t :: t2 :: ts, cs, p, r, h => by
    simp only [matchTokensSeq, Option.bind_eq_bind, Option.bind_eq_some] at h
    obtain ⟨p1, h1, w, hw, p2, h2, hfin⟩ := h
    simp only [Option.some.injEq, Prod.mk.injEq] at hfin
    have e1 := matchCIToken_append t cs p1.1 p1.2 h1
    have e2 := matchWsPlus_append p1.2 w.1 w.2 hw
    have e3 := matchTokensSeq_append (t2 :: ts) w.2 p2.1 p2.2 h2
    rw [← hfin.1, ← hfin.2]
    rw [← e1, ← e2, ← e3]
    simp

theorem tryMatchDbPattern_append (toks : List (List Char)) (cs g1 name rest : List Char)
    (h : tryMatchDbPattern toks cs = some (g1, name, rest)) :
    g1 ++ name ++ ']' :: rest = cs := by
  unfold tryMatchDbPattern at h
  simp only [Option.bind_eq_bind, Option.bind_eq_some] at h
  obtain ⟨ps, hps, h2⟩ := h
  obtain ⟨tks, after⟩ := ps
  have e1 := matchTokensSeq_append toks cs tks after hps
  have e2 := takeWhile_append_drop_length isPyWhitespace after
  dsimp only at h2
  set W := after.takeWhile isPyWhitespace with hW
  clear_value W
  rcases hdrop : after.drop W.length with _ | ⟨c0, r2⟩ <;> rw [hdrop] at h2 e2
  · simp at h2
  · by_cases hc0 : c0 = '['
    · subst hc0
      simp only at h2
      have e3 := takeWhile_append_drop_length (fun x => decide (x ≠ ']')) r2
      set N := r2.takeWhile (fun x => decide (x ≠ ']')) with hN
      clear_value N
      rcases hdrop2 : r2.drop N.length with _ | ⟨c1, r3⟩ <;> rw [hdrop2] at h2 e3
      · simp at h2
      · by_cases hc1 : c1 = ']'
        · subst hc1
          simp only [Option.some.injEq, Prod.mk.injEq] at h2
          obtain ⟨hg, hn, hr⟩ := h2
          rw [← hg, ← hn, ← hr]
          rw [← e1, ← e2, ← e3]
          simp
        · simp [hc1] at h2
    · split at h2 <;> simp_all

/-! The database name never influences which positions match nor whether the
reserved check fires, so the substitution count is independent of it; and a
zero substitution count forces the output text to be the input text. -/

theorem subDbGo_count_db_indep (toks : List (List Char)) (db db2 : List Char) :
    ∀ (fuel : Nat) (prev : Option Char) (cs : List Char),
    (subDbGo toks db fuel prev cs).2 = (subDbGo toks db2 fuel prev cs).2 := by
  intro fuel
  induction fuel with
  | zero => intro prev cs; rfl
  | succ f ih =>
    intro prev cs
    cases cs with
    | nil => rfl
    | cons c cs2 =>
      unfold subDbGo
      cases hb : boundaryBefore prev
      · cases hm : tryMatchDbPattern toks (c :: cs2) <;> dsimp only <;> exact ih (some c) cs2
      · cases hm : tryMatchDbPattern toks (c :: cs2) with
        | none => dsimp only; exact ih (some c) cs2
        | some val =>
          obtain ⟨g1, name, rest⟩ := val
          dsimp only
          split <;> dsimp only
          · exact ih (some ']') rest
          · rw [ih (some ']') rest]

theorem subDbGo_count_zero (toks : List (List Char)) (db : List Char) :
    ∀ (fuel : Nat) (prev : Option Char) (cs : List Char),
    (subDbGo toks db fuel prev cs).2 = 0 → (subDbGo toks db fuel prev cs).1 = cs := by
  intro fuel
  induction fuel with
  | zero => intro prev cs _; rfl
  | succ f ih =>
    intro prev cs h
    cases cs with
    | nil => rfl
    | cons c cs2 =>
      unfold subDbGo at h ⊢
      cases hb : boundaryBefore prev
      · cases hm : tryMatchDbPattern toks (c :: cs2) <;> rw [hb, hm] at h <;>
          dsimp only at h ⊢ <;> exact congrArg (c :: ·) (ih (some c) cs2 h)
      · cases hm : tryMatchDbPattern toks (c :: cs2) with
        | none =>
          rw [hb, hm] at h
          dsimp only at h ⊢
          exact congrArg (c :: ·) (ih (some c) cs2 h)
        | some val =>
          obtain ⟨g1, name, rest⟩ := val
          rw [hb, hm] at h
          have e := tryMatchDbPattern_append toks (c :: cs2) g1 name rest hm
          dsimp only at h ⊢
          split at h <;> rename_i hres <;> simp only [hres, if_true, if_false] at h ⊢
          · rw [ih (some ']') rest h]
            simpa using e
          · omega

theorem subEmptyBracketsGo_count_db_indep (db db2 : List Char) :
    ∀ (fuel : Nat) (cs : List Char),
    (subEmptyBracketsGo db fuel cs).2 = (subEmptyBracketsGo db2 fuel cs).2 := by
  intro fuel
  induction fuel with
  | zero => intro cs; rfl
  | succ f ih =>
    intro cs
    cases cs with
    | nil => rfl
    | cons c cs2 =>
      unfold subEmptyBracketsGo
      split
      · dsimp only
        split <;> dsimp only
        · rw [ih]
        · exact ih cs2
      · dsimp only
        exact ih cs2

theorem subEmptyBracketsGo_count_zero (db : List Char) :
    ∀ (fuel : Nat) (cs : List Char),
    (subEmptyBracketsGo db fuel cs).2 = 0 → (subEmptyBracketsGo db fuel cs).1 = cs := by
  intro fuel
  induction fuel with
  | zero => intro cs _; rfl
  | succ f ih =>
    intro cs h
    rcases hout : subEmptyBracketsGo db (f + 1) cs with ⟨res, n⟩
    rw [hout] at h
    dsimp only at h
    subst h
    cases cs with
    | nil => simp only [subEmptyBracketsGo, Prod.mk.injEq] at hout; exact hout.1.symm
    | cons c cs2 =>
      unfold subEmptyBracketsGo at hout
      dsimp only at hout
      split at hout
      · split at hout <;> rename_i heq
        · simp only [Prod.mk.injEq] at hout
          omega
        · simp only [Prod.mk.injEq] at hout
          have hres := ih cs2 hout.2
          dsimp only
          rw [← hout.1, hres]
      · simp only [Prod.mk.injEq] at hout
        have hres := ih cs2 hout.2
        dsimp only
        rw [← hout.1, hres]

/-- One `_sub_db` pass with a zero substitution count (for any database name)
leaves the text unchanged, whatever the database name. -/
theorem subDb_of_count_zero (toks : List (List Char)) (cs dbA dbB : List Char)
    (h : (subDb toks cs dbA).2 = 0) : subDb toks cs dbB = (cs, 0) := by
  have hc : (subDb toks cs dbB).2 = 0 := by
    unfold subDb at h ⊢
    rw [subDbGo_count_db_indep toks dbB dbA]
    exact h
  have ht := subDbGo_count_zero toks dbB cs.length none cs hc
  exact Prod.ext ht hc

/-- Same statement for the empty-bracket pass. -/
theorem subEmptyBrackets_of_count_zero (fuel : Nat) (cs dbA dbB : List Char)
    (h : (subEmptyBracketsGo dbA fuel cs).2 = 0) :
    subEmptyBracketsGo dbB fuel cs = (cs, 0) := by
  have hc : (subEmptyBracketsGo dbB fuel cs).2 = 0 := by
    rw [subEmptyBracketsGo_count_db_indep dbB dbA]
    exact h
  exact Prod.ext (subEmptyBracketsGo_count_zero dbB fuel cs hc) hc

/-- If the whole bracketed-database rewrite counts zero substitutions for one
database name, it is the identity (with count zero) for every database name. -/
theorem replace_db_of_count_zero (sql db0 db : String)
    (h : (replace_db_name_in_sql_text sql db0).2 = 0) :
    replace_db_name_in_sql_text sql db = (sql, 0) := by
  unfold replace_db_name_in_sql_text at h ⊢
  dsimp only at h ⊢
  have h1 : (subDb dbPatternUse sql.data db0.data).2 = 0 := by omega
  rw [subDb_of_count_zero _ _ _ db0.data h1] at h
  rw [subDb_of_count_zero _ _ _ db.data h1]
  dsimp only at h ⊢
  have h2 : (subDb dbPatternCreate sql.data db0.data).2 = 0 := by omega
  rw [subDb_of_count_zero _ _ _ db0.data h2] at h
  rw [subDb_of_count_zero _ _ _ db.data h2]
  dsimp only at h ⊢
  have h3 : (subDb dbPatternAlter sql.data db0.data).2 = 0 := by omega
  rw [subDb_of_count_zero _ _ _ db0.data h3] at h
  rw [subDb_of_count_zero _ _ _ db.data h3]
  dsimp only at h ⊢
  have h4 : (subDb dbPatternDrop sql.data db0.data).2 = 0 := by omega
  rw [subDb_of_count_zero _ _ _ db0.data h4] at h
  rw [subDb_of_count_zero _ _ _ db.data h4]
  dsimp only at h ⊢
  have h5 : (subDb dbPatternBackup sql.data db0.data).2 = 0 := by omega
  rw [subDb_of_count_zero _ _ _ db0.data h5] at h
  rw [subDb_of_count_zero _ _ _ db.data h5]
  dsimp only at h ⊢
  have h6 : (subDb dbPatternRestore sql.data db0.data).2 = 0 := by omega
  rw [subDb_of_count_zero _ _ _ db0.data h6] at h
  rw [subDb_of_count_zero _ _ _ db.data h6]
  dsimp only at h ⊢
  have h7 : (subDb dbPatternAlterAuth sql.data db0.data).2 = 0 := by omega
  rw [subDb_of_count_zero _ _ _ db0.data h7] at h
  rw [subDb_of_count_zero _ _ _ db.data h7]
  dsimp only at h ⊢
  have h8 : (subDb dbPatternScope sql.data db0.data).2 = 0 := by omega
  rw [subDb_of_count_zero _ _ _ db0.data h8] at h
  rw [subDb_of_count_zero _ _ _ db.data h8]
  dsimp only at h ⊢
  have h9 : (subEmptyBracketsGo db0.data sql.data.length sql.data).2 = 0 := by omega
  rw [subEmptyBrackets_of_count_zero _ _ db0.data db.data h9]
  rfl

/-- C7: for every reserved identifier — in its source spelling or all-upper /
all-lower casing, since `_is_reserved` compares case-insensitively — and every
configured target database name, the bracketed-database-name rewrite leaves
`USE [<reserved>]` unchanged and counts zero substitutions. -/
theorem c7_reserved_names_protected (db r : String) (hr : r ∈ reservedCaseVariants) :
    replace_db_name_in_sql_text ("USE [" ++ r ++ "]") db = ("USE [" ++ r ++ "]", 0) := by
  fin_cases hr <;> exact replace_db_of_count_zero _ "X" db (by decide)

/-- C7, witness: `USE [dbo]` is untouched for the target name `Contoso`. -/
theorem c7_reserved_names_witness :
    replace_db_name_in_sql_text ("USE [" ++ "dbo" ++ "]") "Contoso" =
      ("USE [" ++ "dbo" ++ "]", 0) :=
  c7_reserved_names_protected "Contoso" "dbo" (by decide)

/-! Identity of the cleaning passes on printable-ASCII/CRLF text. -/

theorem badChars_not_printable : ∀ ch ∈ badChars, isPrintableOrCrlf ch = false := by
  decide

theorem removeBadChars_of_ascii (cs : List Char)
    (h : ∀ c ∈ cs, isPrintableOrCrlf c = true) : removeBadChars cs = (cs, 0) := by
  have hnc : ∀ ch ∈ badChars, cs.contains ch = false := by
    intro ch hch
    cases hc : cs.contains ch
    · rfl
    · exfalso
      have hmem : ch ∈ cs := by simpa using hc
      have h1 := h ch hmem
      have h2 := badChars_not_printable ch hch
      rw [h1] at h2
      simp at h2
  unfold removeBadChars
  have gen : ∀ (l : List Char), (∀ ch ∈ l, cs.contains ch = false) →
      l.foldl (fun acc ch =>
        if acc.1.contains ch then (acc.1.filter (· ≠ ch), acc.2 + 1) else acc)
        (cs, 0) = (cs, 0) := by
    intro l
    induction l with
    | nil => intro _; rfl
    | cons x xs ih =>
      intro hl
      rw [List.foldl_cons]
      have hx := hl x (List.mem_cons_self x xs)
      simp only [hx, Bool.false_eq_true, if_false]
      exact ih fun ch hc => hl ch (List.mem_cons_of_mem x hc)
  exact gen badChars hnc

theorem lightClean_of_ascii : ∀ (cs : List Char),
    (∀ c ∈ cs, isPrintableOrCrlf c = true) → lightClean cs = (cs, 0)
  | [], _ => rfl
  | c :: t, h => by
    have hc := h c (List.mem_cons_self c t)
    have ih := lightClean_of_ascii t fun x hx => h x (List.mem_cons_of_mem c hx)
    unfold lightClean
    rw [ih]
    by_cases h1 : isCrLfTab c = true
    · simp [h1]
    · have hp : isPrintableAscii c = true := by
        rcases (by simpa [isPrintableOrCrlf] using hc :
            (isPrintableAscii c = true ∨ c = '\r') ∨ c = '\n') with (h2 | h2) | h2
        · exact h2
        · exact absurd (by simp [isCrLfTab, h2]) h1
        · exact absurd (by simp [isCrLfTab, h2]) h1
      have h32 : 32 ≤ c.toNat ∧ c.toNat ≤ 126 := by
        simpa [isPrintableAscii] using hp
      have hz : (isCategoryZl c || isCategoryZp c || isCategoryCc c) = false := by
        simp only [isCategoryZl, isCategoryZp, isCategoryCc, Bool.or_eq_false_iff]
        refine ⟨⟨?_, ?_⟩, ?_⟩ <;> simp <;> omega
      simp [h1, hz]

theorem aggressiveClean_of_ascii : ∀ (cs : List Char),
    (∀ c ∈ cs, isPrintableOrCrlf c = true) → aggressiveClean cs = (cs, 0)
  | [], _ => rfl
  | c :: t, h => by
    have hc := h c (List.mem_cons_self c t)
    have ih := aggressiveClean_of_ascii t fun x hx => h x (List.mem_cons_of_mem c hx)
    unfold aggressiveClean
    rw [ih]
    by_cases h1 : isCrLfTab c = true
    · simp [h1]
    · have hp : isPrintableAscii c = true := by
        rcases (by simpa [isPrintableOrCrlf] using hc :
            (isPrintableAscii c = true ∨ c = '\r') ∨ c = '\n') with (h2 | h2) | h2
        · exact h2
        · exact absurd (by simp [isCrLfTab, h2]) h1
        · exact absurd (by simp [isCrLfTab, h2]) h1
      simp [h1, hp]

theorem replaceCrlfToLf_cons2_crlf (t : List Char) :
    replaceCrlfToLf ('\r' :: '\n' :: t) = '\n' :: replaceCrlfToLf t := by
  simp [replaceCrlfToLf]

theorem replaceCrlfToLf_cons2_ne (c d : Char) (t : List Char)
    (h : (c = '\r' && d = '\n') = false) :
    replaceCrlfToLf (c :: d :: t) = c :: replaceCrlfToLf (d :: t) := by
  simp only [replaceCrlfToLf, h, Bool.false_eq_true, if_false]

theorem replaceCrToLf_cons (c : Char) (cs : List Char) :
    replaceCrToLf (c :: cs) = (if c = '\r' then '\n' else c) :: replaceCrToLf cs := rfl

theorem replaceLfToCrlf_cons_lf (t : List Char) :
    replaceLfToCrlf ('\n' :: t) = '\r' :: '\n' :: replaceLfToCrlf t := by
  simp [replaceLfToCrlf]

theorem replaceLfToCrlf_cons_ne (c : Char) (t : List Char) (h : ¬c = '\n') :
    replaceLfToCrlf (c :: t) = c :: replaceLfToCrlf t := by
  simp [replaceLfToCrlf, h]

theorem normalizeEol_of_wellFormed : ∀ (cs : List Char), crlfWellFormed cs = true →
    normalizeEol cs = cs
  | [], _ => rfl
  | [c], h => by
    have hc : (c = '\r' || c = '\n') = false := by
      simpa [crlfWellFormed] using h
    simp only [Bool.or_eq_false_iff, decide_eq_false_iff_not] at hc
    unfold normalizeEol
    show replaceLfToCrlf (replaceCrToLf (replaceCrlfToLf [c])) = [c]
    have e1 : replaceCrlfToLf [c] = [c] := by simp [replaceCrlfToLf]
    rw [e1, replaceCrToLf_cons, if_neg hc.1]
    show replaceLfToCrlf [c] = [c]
    rw [replaceLfToCrlf_cons_ne c [] hc.2]
    rfl
  | c :: d :: t, h => by
    unfold crlfWellFormed at h
    by_cases hcd : (c = '\r' && d = '\n') = true
    · rw [if_pos hcd] at h
      have ihr := normalizeEol_of_wellFormed t h
      simp only [Bool.and_eq_true, decide_eq_true_eq] at hcd
      obtain ⟨hc, hd⟩ := hcd
      subst hc
      subst hd
      unfold normalizeEol at ihr ⊢
      rw [replaceCrlfToLf_cons2_crlf, replaceCrToLf_cons, if_neg (by decide),
        replaceLfToCrlf_cons_lf, ihr]
    · rw [if_neg hcd] at h
      rw [Bool.not_eq_true] at hcd
      split at h
      · exact absurd h (by simp)
      · have ihr := normalizeEol_of_wellFormed (d :: t) h
        rename_i hor
        rw [Bool.not_eq_true, Bool.or_eq_false_iff] at hor
        simp only [decide_eq_false_iff_not] at hor
        unfold normalizeEol at ihr ⊢
        rw [replaceCrlfToLf_cons2_ne c d t hcd, replaceCrToLf_cons, if_neg hor.1,
          replaceLfToCrlf_cons_ne c _ hor.2, ihr]

/-- C5, amended: on text of printable ASCII with proper CRLF line endings the
sanitizers (with NFKC behaving as the identity on the text, which is true of
ASCII) report zero changes and return the text unchanged under both levels —
provided the glued-keyword substitution finds nothing to fix.  (The original
claim omits that proviso and is refuted by `c5_counterexample`.) -/
theorem c5_clean_ascii_identity (nfkc : String → String) (txt : String)
    (hn : nfkc txt = txt) (hc : cleanAsciiCrlf txt) (hg : noGluedKeyword txt) :
    sanitize_sql_text_light nfkc txt = (txt, 0, scanNonAsciiLines txt) ∧
    sanitize_sql_text_aggressive nfkc txt = (txt, 0, scanNonAsciiLines txt) := by
  obtain ⟨ha, hwf⟩ := hc
  unfold noGluedKeyword at hg
  constructor
  · unfold sanitize_sql_text_light
    rw [hn]
    dsimp only
    rw [removeBadChars_of_ascii txt.data ha]
    dsimp only
    rw [lightClean_of_ascii txt.data ha]
    dsimp only
    rw [normalizeEol_of_wellFormed txt.data hwf, hg, if_pos rfl]
  · unfold sanitize_sql_text_aggressive
    rw [hn]
    dsimp only
    rw [removeBadChars_of_ascii txt.data ha]
    dsimp only
    rw [aggressiveClean_of_ascii txt.data ha]
    dsimp only
    rw [normalizeEol_of_wellFormed txt.data hwf, hg, if_pos rfl]

/-- C5, witness: the amended statement at a concrete clean script text. -/
theorem c5_clean_ascii_identity_witness :
    sanitize_sql_text_light id "SELECT 1;\r\n" =
      ("SELECT 1;\r\n", 0, scanNonAsciiLines "SELECT 1;\r\n") ∧
    sanitize_sql_text_aggressive id "SELECT 1;\r\n" =
      ("SELECT 1;\r\n", 0, scanNonAsciiLines "SELECT 1;\r\n") :=
  c5_clean_ascii_identity id "SELECT 1;\r\n" rfl (by decide) (by decide)

/-- C5, counterexample: `"SELECT;\r\n"` consists only of printable ASCII with
a standard CRLF ending, yet both levels report one change — the glued-keyword
fix (`\b(DELETE|UPDATE|INSERT|SELECT)(?!\s)` → keyword plus space) rewrites it
to `"SELECT ;\r\n"`, so `change_count = 0` does not hold for every clean
input. -/
theorem c5_counterexample :
    cleanAsciiCrlf "SELECT;\r\n" ∧
    (sanitize_sql_text_light id "SELECT;\r\n").2.1 = 1 ∧
    (sanitize_sql_text_aggressive id "SELECT;\r\n").2.1 = 1 ∧
    (sanitize_sql_text_light id "SELECT;\r\n").1 = "SELECT ;\r\n" := by
  refine ⟨by decide, by decide, by decide, by decide⟩

/-! The FILENAME substitutions with no configured directory reproduce every
match verbatim (the handler returns `m.group(0)`), so they are the identity. -/

theorem matchEqQuoteHead_append (kw cs g1 rest : List Char)
    (h : matchEqQuoteHead kw cs = some (g1, rest)) : g1 ++ rest = cs := by
  unfold matchEqQuoteHead at h
  simp only [Option.bind_eq_bind, Option.bind_eq_some] at h
  obtain ⟨ps, hps, h2⟩ := h
  obtain ⟨tks, after⟩ := ps
  have e1 := matchCIToken_append kw cs tks after hps
  have e2 := takeWhile_append_drop_length isPyWhitespace after
  dsimp only at h2
  set W1 := after.takeWhile isPyWhitespace with hW1
  clear_value W1
  rcases hdrop : after.drop W1.length with _ | ⟨c0, r1⟩ <;> rw [hdrop] at h2 e2
  · simp at h2
  · simp only at h2
    by_cases hc0 : c0 = '='
    · rw [if_pos hc0] at h2
      subst hc0
      have e3 := takeWhile_append_drop_length isPyWhitespace r1
      set W2 := r1.takeWhile isPyWhitespace with hW2
      clear_value W2
      rcases hdrop2 : r1.drop W2.length with _ | ⟨n, r2⟩ <;> rw [hdrop2] at h2 e3
      · simp at h2
      · dsimp only at h2
        rcases r2 with _ | ⟨q, r3⟩
        · dsimp only at h2
          by_cases hq : isQuoteChar n = true
          · rw [if_pos hq] at h2
            simp only [Option.some.injEq, Prod.mk.injEq] at h2
            obtain ⟨hg, hr⟩ := h2
            rw [← hg, ← hr, ← e1, ← e2, ← e3]
            simp
          · rw [if_neg hq] at h2
            simp at h2
        · dsimp only at h2
          by_cases h1 : ((n = 'N' || n = 'n') && isQuoteChar q) = true
          · rw [if_pos h1] at h2
            simp only [Option.some.injEq, Prod.mk.injEq] at h2
            obtain ⟨hg, hr⟩ := h2
            rw [← hg, ← hr, ← e1, ← e2, ← e3]
            simp
          · rw [if_neg h1] at h2
            by_cases h2q : isQuoteChar n = true
            · rw [if_pos h2q] at h2
              simp only [Option.some.injEq, Prod.mk.injEq] at h2
              obtain ⟨hg, hr⟩ := h2
              rw [← hg, ← hr, ← e1, ← e2, ← e3]
              simp
            · rw [if_neg h2q] at h2
              simp at h2
    · rw [if_neg hc0] at h2
      simp at h2

theorem scanLazyExt_append (ext : List Char) : ∀ (cs g2 : List Char) (q : Char)
    (rest : List Char), scanLazyExt ext cs = some (g2, q, rest) →
    g2 ++ q :: rest = cs := by
  intro cs
  induction cs with
  | nil => intro g2 q rest h; simp [scanLazyExt] at h
  | cons c cs2 ih =>
    intro g2 q rest h
    unfold scanLazyExt at h
    have hext : (if isQuoteChar c then none
        else (scanLazyExt ext cs2).map fun p => (c :: p.1, p.2.1, p.2.2)) =
          some (g2, q, rest) →
        g2 ++ q :: rest = c :: cs2 := by
      intro hx
      split at hx
      · simp at hx
      · cases hscan : scanLazyExt ext cs2 with
        | none => rw [hscan] at hx; simp at hx
        | some pr =>
          rw [hscan] at hx
          simp only [Option.map_some', Option.some.injEq, Prod.mk.injEq] at hx
          obtain ⟨h1, h2, h3⟩ := hx
          rw [← h1, ← h2, ← h3]
          have := ih pr.1 pr.2.1 pr.2.2 (by rw [hscan])
          simpa using this
    split at h
    · rename_i echars q2 rest2 heq
      split at h
      · simp only [Option.some.injEq, Prod.mk.injEq] at h
        obtain ⟨h1, h2, h3⟩ := h
        rw [← h1, ← h2, ← h3]
        exact matchCIToken_append ext (c :: cs2) echars (q2 :: rest2) heq
      · exact hext h
    · exact hext h

theorem subFilenameGo_none (ext db target : List Char) :
    ∀ (fuel : Nat) (cs : List Char),
    subFilenameGo ext none db target fuel cs = (cs, 0) := by
  intro fuel
  induction fuel with
  | zero => intro cs; rfl
  | succ f ih =>
    intro cs
    cases cs with
    | nil => rfl
    | cons c cs2 =>
      unfold subFilenameGo
      cases hm : matchEqQuoteHead "FILENAME".data (c :: cs2) with
      | none =>
        dsimp only
        rw [ih cs2]
      | some pr =>
        obtain ⟨g1, r1⟩ := pr
        dsimp only
        cases hs : scanLazyExt ext r1 with
        | none =>
          dsimp only
          rw [ih cs2]
        | some val =>
          obtain ⟨g2, q, rest⟩ := val
          dsimp only
          rw [ih rest]
          dsimp only
          have e1 := matchEqQuoteHead_append "FILENAME".data (c :: cs2) g1 r1 hm
          have e2 := scanLazyExt_append ext r1 g2 q rest hs
          rw [← e1, ← e2]
          simp

theorem normDir_of_not_truthy (d : Option String) (h : truthy d = false) :
    normDir d = none := by
  cases d with
  | none => rfl
  | some s =>
    unfold truthy at h
    simp only [Bool.not_eq_false'] at h
    unfold normDir
    dsimp only
    rw [if_pos h]

/-- C3, amended: within the text-level rewrite the NAME-stem replacement is
applied regardless of the directory configuration — with neither directory
set the FILENAME substitutions are the identity with zero path rewrites while
the `NAME = '..._Data'`/`'..._Log'` stems are still rewritten; however, the
file-level staging rewrite returns immediately when neither MDF_DIR nor
LDF_DIR is configured, so during staging no NAME rewrite happens in that
case. -/
theorem c3_name_rewrite_gate (db : String) (mdf ldf : Option String)
    (hm : truthy mdf = false) (hl : truthy ldf = false) :
    (∀ (fs : FS) (p : FPath), rewrite_file_paths_in_file fs p db mdf ldf = fs) ∧
    (∀ txt : String, rewriteFilePathsText db mdf ldf txt = txt) ∧
    (∀ sql : String,
      rewrite_file_paths_in_sql_text sql db mdf ldf =
        ((let nd := subNameStemGo "Data".data db.data "_Data".data
            sql.data.length sql.data
          let nl := subNameStemGo "Log".data db.data "_Log".data nd.1.length nd.1
          (String.mk nl.1, 0, nd.2 + nl.2)))) := by
  have hgate : (truthy mdf || truthy ldf) = false := by rw [hm, hl]; rfl
  refine ⟨?_, ?_, ?_⟩
  · intro fs p
    unfold rewrite_file_paths_in_file
    rw [hgate]
    rfl
  · intro txt
    unfold rewriteFilePathsText
    rw [hgate]
    rfl
  · intro sql
    unfold rewrite_file_paths_in_sql_text
    rw [normDir_of_not_truthy mdf hm, normDir_of_not_truthy ldf hl]
    simp only [Option.map_none']
    rw [subFilenameGo_none ".mdf".data db.data "_Data.mdf".data]
    dsimp only
    rw [subFilenameGo_none ".ldf".data db.data "_Log.ldf".data]
    simp

/-- C3, witness: the amended statement with no configured directories. -/
theorem c3_name_rewrite_gate_witness :
    (∀ (fs : FS) (p : FPath), rewrite_file_paths_in_file fs p "Bar" none none = fs) ∧
    (∀ txt : String, rewriteFilePathsText "Bar" none none txt = txt) ∧
    (∀ sql : String,
      rewrite_file_paths_in_sql_text sql "Bar" none none =
        ((let nd := subNameStemGo "Data".data "Bar".data "_Data".data
            sql.data.length sql.data
          let nl := subNameStemGo "Log".data "Bar".data "_Log".data nd.1.length nd.1
          (String.mk nl.1, 0, nd.2 + nl.2)))) :=
  c3_name_rewrite_gate "Bar" none none rfl rfl

/-- C3, counterexample: with neither MDF_DIR nor LDF_DIR configured, the
staging-level rewrite leaves `NAME = 'Foo_Data'` untouched (the claim says
the stem becomes `Bar_Data` also in that case), even though the text-level
function would rewrite the stem. -/
theorem c3_counterexample :
    rewrite_file_paths_in_file [(FPath.tmp 0 "s.sql", "NAME = \x27Foo_Data\x27")]
      (FPath.tmp 0 "s.sql") "Bar" none none =
      [(FPath.tmp 0 "s.sql", "NAME = \x27Foo_Data\x27")] ∧
    rewriteFilePathsText "Bar" none none "NAME = \x27Foo_Data\x27" =
      "NAME = \x27Foo_Data\x27" ∧
    stageText id
      ⟨"Bar", [], [], .noscope, .nolevel, fun _ => false, true, 1, false⟩
      false "s.sql" "NAME = \x27Foo_Data\x27" = "NAME = \x27Foo_Data\x27" ∧
    (rewrite_file_paths_in_sql_text "NAME = \x27Foo_Data\x27" "Bar" none none).1 =
      "NAME = \x27Bar_Data\x27" := by
  refine ⟨rfl, rfl, by decide, by decide⟩

/-! Filesystem lemmas. -/

theorem fsRead_cons (e : FPath × String) (t : FS) (q : FPath) :
    fsRead (e :: t) q = if e.1 = q then some e.2 else fsRead t q := rfl

theorem fsRead_write_self (fs : FS) (p : FPath) (v : String) :
    fsRead (fsWrite fs p v) p = some v := by
  unfold fsWrite
  rw [fsRead_cons, if_pos rfl]

theorem fsRead_write_ne (fs : FS) (p q : FPath) (v : String) (h : q ≠ p) :
    fsRead (fsWrite fs p v) q = fsRead fs q := by
  unfold fsWrite
  rw [fsRead_cons, if_neg (Ne.symm h)]

theorem fsRemoveDir_cons_src (m v : String) (t : FS) (d : Nat) :
    fsRemoveDir ((FPath.src m, v) :: t) d = (FPath.src m, v) :: fsRemoveDir t d := by
  unfold fsRemoveDir
  rw [List.filter_cons_of_pos (by rfl)]

theorem fsRemoveDir_cons_tmp (dd : Nat) (m v : String) (t : FS) (d : Nat) :
    fsRemoveDir ((FPath.tmp dd m, v) :: t) d =
      if dd = d then fsRemoveDir t d else (FPath.tmp dd m, v) :: fsRemoveDir t d := by
  unfold fsRemoveDir
  by_cases h : dd = d
  · rw [List.filter_cons_of_neg (by simp [h]), if_pos h]
  · rw [List.filter_cons_of_pos (by simp [h]), if_neg h]

theorem fsRead_removeDir_src (fs : FS) (d : Nat) (n : String) :
    fsRead (fsRemoveDir fs d) (.src n) = fsRead fs (.src n) := by
  induction fs with
  | nil => rfl
  | cons e t ih =>
    obtain ⟨p, v⟩ := e
    cases p with
    | src m =>
      rw [fsRemoveDir_cons_src, fsRead_cons, fsRead_cons, ih]
    | tmp dd m =>
      rw [fsRemoveDir_cons_tmp]
      split
      · rw [ih, fsRead_cons, if_neg (by simp)]
      · rw [fsRead_cons, fsRead_cons, ih]

/-! Read lemmas for the file-level transforms: reading the written path gives
the corresponding pure text transform, reading any other path is untouched. -/

theorem reemplazar_read_self (fs : FS) (p : FPath) (reps : List (String × String))
    (txt : String) (h : fsRead fs p = some txt) :
    fsRead (reemplazar_en_archivo fs p reps) p = some (applyReplacements txt reps) := by
  unfold reemplazar_en_archivo
  rw [h]
  dsimp only
  split
  · exact fsRead_write_self fs p _
  · rename_i hne
    rw [h, not_not.mp hne]

theorem reemplazar_read_other (fs : FS) (p q : FPath) (reps : List (String × String))
    (h : q ≠ p) :
    fsRead (reemplazar_en_archivo fs p reps) q = fsRead fs q := by
  unfold reemplazar_en_archivo
  cases fsRead fs p
  · rfl
  · dsimp only
    split
    · exact fsRead_write_ne fs p q _ h
    · rfl

theorem sanitize_read_self (nfkc : String → String) (fs : FS) (p : FPath)
    (level : SanLevel) (txt : String) (h : fsRead fs p = some txt) :
    fsRead (sanitize_sql_file nfkc fs p level) p =
      some (sanitizeFileModel nfkc level txt).1 := by
  unfold sanitize_sql_file
  cases level with
  | nolevel => simpa using h
  | light =>
    rw [h]
    dsimp only
    split
    · exact fsRead_write_self fs p _
    · rename_i hne
      rw [h, not_not.mp hne]
  | aggressive =>
    rw [h]
    dsimp only
    split
    · exact fsRead_write_self fs p _
    · rename_i hne
      rw [h, not_not.mp hne]

theorem sanitize_read_other (nfkc : String → String) (fs : FS) (p q : FPath)
    (level : SanLevel) (h : q ≠ p) :
    fsRead (sanitize_sql_file nfkc fs p level) q = fsRead fs q := by
  unfold sanitize_sql_file
  cases level with
  | nolevel => rfl
  | light =>
    cases fsRead fs p
    · rfl
    · dsimp only
      split
      · exact fsRead_write_ne fs p q _ h
      · rfl
  | aggressive =>
    cases fsRead fs p
    · rfl
    · dsimp only
      split
      · exact fsRead_write_ne fs p q _ h
      · rfl

theorem customize_read_self (fs : FS) (p : FPath) (name : String)
    (users : List UserPair) (txt : String) (h : fsRead fs p = some txt) :
    fsRead (customize_users_in_file fs p name users) p =
      some (customizeFileText name users txt) := by
  unfold customize_users_in_file customizeFileText
  rw [h]
  dsimp only
  split
  · split
    · exact fsRead_write_self fs p _
    · exact h
  · exact h

theorem customize_read_other (fs : FS) (p q : FPath) (name : String)
    (users : List UserPair) (h : q ≠ p) :
    fsRead (customize_users_in_file fs p name users) q = fsRead fs q := by
  unfold customize_users_in_file
  cases fsRead fs p
  · rfl
  · dsimp only
    split
    · split
      · exact fsRead_write_ne fs p q _ h
      · rfl
    · rfl

theorem brackets_read_self (fs : FS) (p : FPath) (dbName : String) (txt : String)
    (h : fsRead fs p = some txt) :
    fsRead (replace_db_brackets_in_file fs p dbName) p =
      some (replaceDbBracketsText dbName txt) := by
  unfold replace_db_brackets_in_file replaceDbBracketsText
  rw [h]
  dsimp only
  split
  · exact fsRead_write_self fs p _
  · exact h

theorem brackets_read_other (fs : FS) (p q : FPath) (dbName : String) (h : q ≠ p) :
    fsRead (replace_db_brackets_in_file fs p dbName) q = fsRead fs q := by
  unfold replace_db_brackets_in_file
  cases fsRead fs p
  · rfl
  · dsimp only
    split
    · exact fsRead_write_ne fs p q _ h
    · rfl

theorem rewrite_read_self (fs : FS) (p : FPath) (dbName : String)
    (mdfDir ldfDir : Option String) (txt : String) (h : fsRead fs p = some txt) :
    fsRead (rewrite_file_paths_in_file fs p dbName mdfDir ldfDir) p =
      some (rewriteFilePathsText dbName mdfDir ldfDir txt) := by
  unfold rewrite_file_paths_in_file rewriteFilePathsText
  split
  · exact h
  · rw [h]
    dsimp only
    split
    · exact fsRead_write_self fs p _
    · exact h

theorem rewrite_read_other (fs : FS) (p q : FPath) (dbName : String)
    (mdfDir ldfDir : Option String) (h : q ≠ p) :
    fsRead (rewrite_file_paths_in_file fs p dbName mdfDir ldfDir) q = fsRead fs q := by
  unfold rewrite_file_paths_in_file
  split
  · rfl
  · cases fsRead fs p
    · rfl
    · dsimp only
      split
      · exact fsRead_write_ne fs p q _ h
      · rfl

/-! Staging lemmas: the staged file holds exactly the pure text pipeline of
the original content, and staging never touches a source path. -/

theorem prepare_stagedPath (nfkc : String → String) (cfg : Config) (doSan : Bool)
    (fs : FS) (alloc : Nat) (name : String) :
    (prepare_script_text_for_exec nfkc cfg doSan fs alloc name).stagedPath =
      FPath.tmp alloc name := rfl

theorem prepare_stagedDir (nfkc : String → String) (cfg : Config) (doSan : Bool)
    (fs : FS) (alloc : Nat) (name : String) :
    (prepare_script_text_for_exec nfkc cfg doSan fs alloc name).stagedDir = alloc := rfl

theorem prepare_alloc (nfkc : String → String) (cfg : Config) (doSan : Bool)
    (fs : FS) (alloc : Nat) (name : String) :
    (prepare_script_text_for_exec nfkc cfg doSan fs alloc name).alloc = alloc + 1 := rfl

theorem prepare_finalText (nfkc : String → String) (cfg : Config) (doSan : Bool)
    (fs : FS) (alloc : Nat) (name : String) :
    (prepare_script_text_for_exec nfkc cfg doSan fs alloc name).finalText =
      stageText nfkc cfg doSan name ((fsRead fs (.src name)).getD "") := by
  unfold prepare_script_text_for_exec stageText
  dsimp only
  set staged : FPath := FPath.tmp alloc name with hstaged
  set orig : String := (fsRead fs (FPath.src name)).getD "" with horig
  have h1 : fsRead (fsWrite fs staged orig) staged = some orig :=
    fsRead_write_self fs staged orig
  set c1 : Bool := !cfg.tokens.isEmpty && scriptContainsCreateDb orig with hc1
  set fs2 : FS := if c1 = true then
      reemplazar_en_archivo (fsWrite fs staged orig) staged cfg.tokens
    else fsWrite fs staged orig with hfs2
  set t2 : String := if c1 = true then applyReplacements orig cfg.tokens else orig
    with ht2
  have h2 : fsRead fs2 staged = some t2 := by
    rw [hfs2, ht2]
    split
    · exact reemplazar_read_self _ staged cfg.tokens orig h1
    · exact h1
  set fs3 : FS := if doSan = true then sanitize_sql_file nfkc fs2 staged cfg.sanitizeLevel
    else fs2 with hfs3
  set t3 : String := if doSan = true then (sanitizeFileModel nfkc cfg.sanitizeLevel t2).1
    else t2 with ht3
  have h3 : fsRead fs3 staged = some t3 := by
    rw [hfs3, ht3]
    split
    · exact sanitize_read_self nfkc fs2 staged cfg.sanitizeLevel t2 h2
    · exact h2
  have h4 : fsRead (customize_users_in_file fs3 staged name cfg.users) staged =
      some (customizeFileText name cfg.users t3) :=
    customize_read_self fs3 staged name cfg.users t3 h3
  have h5 : fsRead (replace_db_brackets_in_file
        (customize_users_in_file fs3 staged name cfg.users) staged cfg.dbName) staged =
      some (replaceDbBracketsText cfg.dbName (customizeFileText name cfg.users t3)) :=
    brackets_read_self _ staged cfg.dbName _ h4
  have h6 := rewrite_read_self
    (replace_db_brackets_in_file
      (customize_users_in_file fs3 staged name cfg.users) staged cfg.dbName)
    staged cfg.dbName (tokensGet cfg.tokens "MDF_DIR") (tokensGet cfg.tokens "LDF_DIR")
    _ h5
  rw [h6]
  rfl

theorem prepare_read_src (nfkc : String → String) (cfg : Config) (doSan : Bool)
    (fs : FS) (alloc : Nat) (name m : String) :
    fsRead (prepare_script_text_for_exec nfkc cfg doSan fs alloc name).fs
      (FPath.src m) = fsRead fs (FPath.src m) := by
  unfold prepare_script_text_for_exec
  dsimp only
  have hne : FPath.src m ≠ FPath.tmp alloc name := by simp
  rw [rewrite_read_other _ _ _ _ _ _ hne, brackets_read_other _ _ _ _ hne,
    customize_read_other _ _ _ _ _ hne]
  split
  · rw [sanitize_read_other _ _ _ _ _ hne]
    split
    · rw [reemplazar_read_other _ _ _ _ hne]
      exact fsRead_write_ne fs _ _ _ hne
    · exact fsRead_write_ne fs _ _ _ hne
  · split
    · rw [reemplazar_read_other _ _ _ _ hne]
      exact fsRead_write_ne fs _ _ _ hne
    · exact fsRead_write_ne fs _ _ _ hne

/-- The wrapped text submitted for execution is the session preamble followed
by the staged text (the wrapper reads the staged file back). -/
theorem prepare_read_staged (nfkc : String → String) (cfg : Config) (doSan : Bool)
    (fs : FS) (alloc : Nat) (name : String) :
    ((fsRead (prepare_script_text_for_exec nfkc cfg doSan fs alloc name).fs
      (prepare_script_text_for_exec nfkc cfg doSan fs alloc name).stagedPath).getD "") =
      (prepare_script_text_for_exec nfkc cfg doSan fs alloc name).finalText := rfl

/-! Retry-loop lemmas. -/

theorem runAttemptsGo_first_success (exec : String → Nat → Nat) (w : String)
    (fuel : Nat) (h : exec w 1 = 0) :
    runAttemptsGo exec w (fuel + 1) 0 = (1, true) := by
  unfold runAttemptsGo
  rw [if_pos h]

theorem runAttemptsGo_all_fail (exec : String → Nat → Nat) (w : String)
    (h : ∀ n, exec w n ≠ 0) :
    ∀ (fuel a : Nat), runAttemptsGo exec w fuel a = (a + fuel, false) := by
  intro fuel
  induction fuel with
  | zero => intro a; rfl
  | succ f ih =>
    intro a
    unfold runAttemptsGo
    rw [if_neg (h (a + 1))]
    rw [ih (a + 1)]
    congr 1
    omega

/-! Per-script processing lemmas. -/

theorem processScript_finalText_eq (nfkc : String → String)
    (cfg : Config) (st : RunState) (name : String) :
    (prepare_script_text_for_exec nfkc cfg (doSanitizeFor cfg name) st.fs
      st.alloc name).finalText = stagedOf nfkc cfg st.fs name :=
  prepare_finalText nfkc cfg (doSanitizeFor cfg name) st.fs st.alloc name

theorem processScript_read_src (nfkc hash : String → String)
    (exec : String → Nat → Nat) (cfg : Config) (applied : List String)
    (verbose : Bool) (st : RunState) (name m : String) :
    fsRead (processScript nfkc hash exec cfg applied verbose st name).2.1.fs
      (FPath.src m) = fsRead st.fs (FPath.src m) := by
  unfold processScript
  dsimp only
  split
  · rw [fsRead_removeDir_src, prepare_read_src]
  · split
    · rw [fsRead_removeDir_src, prepare_read_src]
    · rw [fsRead_removeDir_src, fsRead_removeDir_src,
        fsRead_write_ne _ _ _ _ (by simp), prepare_read_src]

theorem processScript_skip (nfkc hash : String → String)
    (exec : String → Nat → Nat) (cfg : Config) (applied : List String)
    (verbose : Bool) (st : RunState) (name : String)
    (happl : applied.isEmpty = false)
    (hmem : applied.contains (hash (stagedOf nfkc cfg st.fs name)) = true) :
    (processScript nfkc hash exec cfg applied verbose st name).1 =
      ⟨name, stagedOf nfkc cfg st.fs name,
        hash (stagedOf nfkc cfg st.fs name), .skipped, none⟩ ∧
    (processScript nfkc hash exec cfg applied verbose st name).2.1.ledger =
      st.ledger ∧
    (processScript nfkc hash exec cfg applied verbose st name).2.2 = false := by
  unfold processScript
  dsimp only
  rw [processScript_finalText_eq nfkc cfg st name]
  rw [if_pos (by rw [happl, hmem]; rfl)]
  exact ⟨rfl, rfl, rfl⟩

theorem processScript_success (nfkc hash : String → String)
    (exec : String → Nat → Nat) (cfg : Config) (verbose : Bool)
    (st : RunState) (name : String) (hdry : cfg.dryRun = false)
    (hexec1 : exec (sessionPreamble verbose ++ stagedOf nfkc cfg st.fs name) 1 = 0) :
    (processScript nfkc hash exec cfg [] verbose st name).1 =
      ⟨name, stagedOf nfkc cfg st.fs name, hash (stagedOf nfkc cfg st.fs name),
        .succeeded 1,
        some (sessionPreamble verbose ++ stagedOf nfkc cfg st.fs name)⟩ ∧
    (processScript nfkc hash exec cfg [] verbose st name).2.1.ledger =
      st.ledger ++ [⟨name, hash (stagedOf nfkc cfg st.fs name), true⟩] ∧
    (processScript nfkc hash exec cfg [] verbose st name).2.2 = false := by
  unfold processScript
  dsimp only
  rw [prepare_read_staged, processScript_finalText_eq nfkc cfg st name]
  rw [if_neg (by simp), if_neg (by simp [hdry])]
  rw [runAttemptsGo_first_success exec _ cfg.retries hexec1]
  dsimp only
  simp only [Bool.not_true, Bool.false_or, if_true, if_false]
  have hfalse : (decide (1 > cfg.retries) && decide (1 ≥ 2)) = false := by
    simp
  rw [hfalse]
  simp

theorem processScript_all_fail (nfkc hash : String → String)
    (exec : String → Nat → Nat) (cfg : Config) (verbose : Bool)
    (st : RunState) (name : String) (hdry : cfg.dryRun = false)
    (hfail : ∀ n,
      exec (sessionPreamble verbose ++ stagedOf nfkc cfg st.fs name) n ≠ 0) :
    (processScript nfkc hash exec cfg [] verbose st name).1 =
      ⟨name, stagedOf nfkc cfg st.fs name, hash (stagedOf nfkc cfg st.fs name),
        .failed (cfg.retries + 1),
        some (sessionPreamble verbose ++ stagedOf nfkc cfg st.fs name)⟩ ∧
    (processScript nfkc hash exec cfg [] verbose st name).2.1.ledger =
      st.ledger ++ [⟨name, hash (stagedOf nfkc cfg st.fs name), false⟩] ∧
    (processScript nfkc hash exec cfg [] verbose st name).2.2 = true := by
  unfold processScript
  dsimp only
  rw [prepare_read_staged, processScript_finalText_eq nfkc cfg st name]
  rw [if_neg (by simp), if_neg (by simp [hdry])]
  rw [runAttemptsGo_all_fail exec _ hfail (cfg.retries + 1) 0]
  dsimp only
  simp only [Nat.zero_add, Bool.not_false, Bool.true_or]
  have htrue : (decide (cfg.retries + 1 > cfg.retries) && true) = true := by
    simp
  rw [htrue]
  simp

theorem processScript_not_skipped (nfkc hash : String → String)
    (exec : String → Nat → Nat) (cfg : Config) (applied : List String)
    (verbose : Bool) (st : RunState) (name : String) (hdry : cfg.dryRun = false)
    (hmem : applied.contains (hash (stagedOf nfkc cfg st.fs name)) = false) :
    (processScript nfkc hash exec cfg applied verbose st name).1.name = name ∧
    (processScript nfkc hash exec cfg applied verbose st name).1.stagedText =
      stagedOf nfkc cfg st.fs name ∧
    (processScript nfkc hash exec cfg applied verbose st name).1.outcome ≠
      .skipped ∧
    (processScript nfkc hash exec cfg applied verbose st name).1.submitted =
      some (sessionPreamble verbose ++ stagedOf nfkc cfg st.fs name) := by
  unfold processScript
  dsimp only
  rw [prepare_read_staged, processScript_finalText_eq nfkc cfg st name]
  rw [if_neg (by rw [hmem]; simp)]
  rw [if_neg (by simp [hdry])]
  refine ⟨rfl, rfl, ?_, rfl⟩
  dsimp only
  split <;> simp

/-! Loop-level lemmas. -/

theorem stagedOf_congr (nfkc : String → String) (cfg : Config) (fsA fsB : FS)
    (name : String)
    (h : fsRead fsA (FPath.src name) = fsRead fsB (FPath.src name)) :
    stagedOf nfkc cfg fsA name = stagedOf nfkc cfg fsB name := by
  unfold stagedOf
  rw [h]

theorem runScripts_read_src (nfkc hash : String → String)
    (exec : String → Nat → Nat) (cfg : Config) (applied : List String)
    (verbose : Bool) :
    ∀ (scripts : List String) (st : RunState) (m : String),
    fsRead (runScripts nfkc hash exec cfg applied verbose st scripts).2.1.fs
      (FPath.src m) = fsRead st.fs (FPath.src m) := by
  intro scripts
  induction scripts with
  | nil => intro st m; rfl
  | cons name rest ih =>
    intro st m
    unfold runScripts
    dsimp only
    split
    · exact processScript_read_src nfkc hash exec cfg applied verbose st name m
    · rw [ih]
      exact processScript_read_src nfkc hash exec cfg applied verbose st name m

theorem mem_get_applied_hashes (ledger : List HistoryRecord) (x : String) :
    x ∈ get_applied_hashes ledger ↔
      ∃ r ∈ ledger, r.success = true ∧ r.scriptHash = x ∧ x.length = 64 := by
  unfold get_applied_hashes
  simp only [List.mem_filter, List.mem_map, beq_iff_eq]
  constructor
  · rintro ⟨⟨r, ⟨hr, hs⟩, hx⟩, hlen⟩
    exact ⟨r, hr, hs, hx, hlen⟩
  · rintro ⟨r, hr, hs, hx, hlen⟩
    exact ⟨⟨r, ⟨hr, hs⟩, hx⟩, hlen⟩

theorem contains_iff_mem_str (l : List String) (x : String) :
    l.contains x = true ↔ x ∈ l := by
  simp

theorem runScripts_all_success (nfkc hash : String → String)
    (exec : String → Nat → Nat) (cfg : Config) (verbose : Bool) (fs0 : FS)
    (hexec : ∀ t n, exec t n = 0) (hdry : cfg.dryRun = false) :
    ∀ (scripts : List String) (st : RunState),
    (∀ m, fsRead st.fs (FPath.src m) = fsRead fs0 (FPath.src m)) →
    (runScripts nfkc hash exec cfg [] verbose st scripts).1 =
      scripts.map (fun nm =>
        ⟨nm, stagedOf nfkc cfg fs0 nm, hash (stagedOf nfkc cfg fs0 nm),
          .succeeded 1, some (sessionPreamble verbose ++ stagedOf nfkc cfg fs0 nm)⟩) ∧
    (runScripts nfkc hash exec cfg [] verbose st scripts).2.1.ledger =
      st.ledger ++ scripts.map (fun nm =>
        ⟨nm, hash (stagedOf nfkc cfg fs0 nm), true⟩) ∧
    (runScripts nfkc hash exec cfg [] verbose st scripts).2.2 = true := by
  intro scripts
  induction scripts with
  | nil => intro st _; exact ⟨rfl, by simp [runScripts], rfl⟩
  | cons name rest ih =>
    intro st hsrc
    unfold runScripts
    dsimp only
    obtain ⟨hr, hl, hab⟩ :=
      processScript_success nfkc hash exec cfg verbose st name hdry (hexec _ 1)
    rw [hab]
    simp only [Bool.false_eq_true, if_false]
    have hsrc2 : ∀ m, fsRead (processScript nfkc hash exec cfg [] verbose st name).2.1.fs
        (FPath.src m) = fsRead fs0 (FPath.src m) := fun m =>
      (processScript_read_src nfkc hash exec cfg [] verbose st name m).trans (hsrc m)
    obtain ⟨ih1, ih2, ih3⟩ :=
      ih (processScript nfkc hash exec cfg [] verbose st name).2.1 hsrc2
    have hcong := stagedOf_congr nfkc cfg st.fs fs0 name (hsrc name)
    refine ⟨?_, ?_, ih3⟩
    · rw [List.map_cons]
      rw [ih1, hr, hcong]
    · dsimp only
      rw [ih2, hl, hcong]
      simp [List.append_assoc]

theorem runScripts_all_skip (nfkc hash : String → String)
    (exec : String → Nat → Nat) (cfg : Config) (applied : List String)
    (verbose : Bool) (fs0 : FS) (happl : applied.isEmpty = false) :
    ∀ (scripts : List String) (st : RunState),
    (∀ m, fsRead st.fs (FPath.src m) = fsRead fs0 (FPath.src m)) →
    (∀ nm ∈ scripts, applied.contains (hash (stagedOf nfkc cfg fs0 nm)) = true) →
    (runScripts nfkc hash exec cfg applied verbose st scripts).1 =
      scripts.map (fun nm =>
        ⟨nm, stagedOf nfkc cfg fs0 nm, hash (stagedOf nfkc cfg fs0 nm),
          .skipped, none⟩) ∧
    (runScripts nfkc hash exec cfg applied verbose st scripts).2.1.ledger =
      st.ledger ∧
    (runScripts nfkc hash exec cfg applied verbose st scripts).2.2 = true := by
  intro scripts
  induction scripts with
  | nil => intro st _ _; exact ⟨rfl, rfl, rfl⟩
  | cons name rest ih =>
    intro st hsrc hin
    unfold runScripts
    dsimp only
    have hcong := stagedOf_congr nfkc cfg st.fs fs0 name (hsrc name)
    obtain ⟨hr, hl, hab⟩ :=
      processScript_skip nfkc hash exec cfg applied verbose st name happl
        (by rw [hcong]; exact hin name (List.mem_cons_self name rest))
    rw [hab]
    simp only [Bool.false_eq_true, if_false]
    have hsrc2 : ∀ m,
        fsRead (processScript nfkc hash exec cfg applied verbose st name).2.1.fs
          (FPath.src m) = fsRead fs0 (FPath.src m) := fun m =>
      (processScript_read_src nfkc hash exec cfg applied verbose st name m).trans
        (hsrc m)
    obtain ⟨ih1, ih2, ih3⟩ :=
      ih (processScript nfkc hash exec cfg applied verbose st name).2.1 hsrc2
        (fun nm hnm => hin nm (List.mem_cons_of_mem name hnm))
    refine ⟨?_, ?_, ih3⟩
    · rw [List.map_cons]
      rw [ih1, hr, hcong]
    · rw [ih2, hl]

/-- C9: originals are never mutated: for every configuration, executor,
ledger and outcome (success, failure, skip or dry-run), every source path
reads the same before and after a full run — the staging pipeline writes only
to fresh private temp paths. -/
theorem c9_originals_never_mutated (nfkc hash : String → String)
    (exec : String → Nat → Nat) (cfg : Config) (dbExists : Bool) (verbose : Bool)
    (ledger0 : List HistoryRecord) (fs0 : FS) (names : List String) (m : String) :
    fsRead (run_backend_installation nfkc hash exec cfg dbExists verbose ledger0
      fs0 names).state.fs (FPath.src m) = fsRead fs0 (FPath.src m) := by
  unfold run_backend_installation
  split
  · rfl
  · exact runScripts_read_src nfkc hash exec cfg _ verbose (ordenar_scripts names)
      ⟨fs0, 0, ledger0⟩ m

/-! Field lemmas of `processScript` for the session-wrapper claim. -/

theorem processScript_stagedText (nfkc hash : String → String)
    (exec : String → Nat → Nat) (cfg : Config) (applied : List String)
    (b : Bool) (st : RunState) (name : String) :
    (processScript nfkc hash exec cfg applied b st name).1.stagedText =
      stagedOf nfkc cfg st.fs name := by
  unfold processScript
  dsimp only
  rw [processScript_finalText_eq nfkc cfg st name]
  split
  · rfl
  · split
    · rfl
    · rfl

theorem processScript_scriptHash (nfkc hash : String → String)
    (exec : String → Nat → Nat) (cfg : Config) (applied : List String)
    (b : Bool) (st : RunState) (name : String) :
    (processScript nfkc hash exec cfg applied b st name).1.scriptHash =
      hash (stagedOf nfkc cfg st.fs name) := by
  unfold processScript
  dsimp only
  rw [processScript_finalText_eq nfkc cfg st name]
  split
  · rfl
  · split
    · rfl
    · rfl

theorem processScript_submitted (nfkc hash : String → String)
    (exec : String → Nat → Nat) (cfg : Config) (applied : List String)
    (b : Bool) (st : RunState) (name : String) (w : String) :
    (processScript nfkc hash exec cfg applied b st name).1.submitted = some w →
    w = sessionPreamble b ++ stagedOf nfkc cfg st.fs name := by
  unfold processScript
  dsimp only
  rw [prepare_read_staged, processScript_finalText_eq nfkc cfg st name]
  split
  · intro h
    simp at h
  · split
    · intro h
      simp at h
    · intro h
      dsimp only at h
      simp only [Option.some.injEq] at h
      exact h.symm

theorem processScript_ledger_mem (nfkc hash : String → String)
    (exec : String → Nat → Nat) (cfg : Config) (applied : List String)
    (b : Bool) (st : RunState) (name : String) :
    ∀ rec ∈ (processScript nfkc hash exec cfg applied b st name).2.1.ledger,
      rec ∈ st.ledger ∨ rec.scriptHash = hash (stagedOf nfkc cfg st.fs name) := by
  intro rec hrec
  unfold processScript at hrec
  dsimp only at hrec
  rw [processScript_finalText_eq nfkc cfg st name] at hrec
  split at hrec
  · exact Or.inl hrec
  · split at hrec
    · exact Or.inl hrec
    · dsimp only at hrec
      split at hrec
      · rw [List.mem_append] at hrec
        rcases hrec with h1 | h2
        · split at h1
          · rw [List.mem_append] at h1
            rcases h1 with h3 | h4
            · exact Or.inl h3
            · simp only [List.mem_singleton] at h4
              rw [h4]
              exact Or.inr rfl
          · exact Or.inl h1
        · simp only [List.mem_singleton] at h2
          rw [h2]
          exact Or.inr rfl
      · split at hrec
        · rw [List.mem_append] at hrec
          rcases hrec with h3 | h4
          · exact Or.inl h3
          · simp only [List.mem_singleton] at h4
            rw [h4]
            exact Or.inr rfl
        · exact Or.inl hrec

theorem sessionPreamble_append_ne (t : String) :
    sessionPreamble true ++ t ≠ sessionPreamble false ++ t := by
  intro h
  have hlen := congrArg String.length h
  rw [String.length_append, String.length_append] at hlen
  have hne : (sessionPreamble true).length ≠ (sessionPreamble false).length := by
    set_option maxRecDepth 4096 in decide
  omega

/-- C10: the recorded hash identity is computed over the staged text before
the session preamble is prepended; the submitted text is the preamble followed
by exactly that hashed text; the staged text and hash do not depend on the
preamble flag; every new ledger row carries the pre-wrapper hash; and changing
the preamble changes the submitted text but never the hash identity. -/
theorem c10_hash_excludes_session_preamble (nfkc hash : String → String)
    (exec : String → Nat → Nat) (cfg : Config) (applied : List String)
    (st : RunState) (name : String) :
    (∀ b : Bool,
      (processScript nfkc hash exec cfg applied b st name).1.scriptHash =
        hash ((processScript nfkc hash exec cfg applied b st name).1.stagedText)) ∧
    (∀ (b : Bool) (w : String),
      (processScript nfkc hash exec cfg applied b st name).1.submitted = some w →
      w = sessionPreamble b ++
        (processScript nfkc hash exec cfg applied b st name).1.stagedText) ∧
    ((processScript nfkc hash exec cfg applied true st name).1.stagedText =
      (processScript nfkc hash exec cfg applied false st name).1.stagedText) ∧
    (∀ b : Bool,
      ∀ rec ∈ (processScript nfkc hash exec cfg applied b st name).2.1.ledger,
        rec ∈ st.ledger ∨ rec.scriptHash =
          hash ((processScript nfkc hash exec cfg applied b st name).1.stagedText)) ∧
    (∀ t : String, sessionPreamble true ++ t ≠ sessionPreamble false ++ t) := by
  refine ⟨?_, ?_, ?_, ?_, sessionPreamble_append_ne⟩
  · intro b
    rw [processScript_stagedText, processScript_scriptHash]
  · intro b w h
    rw [processScript_stagedText]
    exact processScript_submitted nfkc hash exec cfg applied b st name w h
  · rw [processScript_stagedText, processScript_stagedText]
  · intro b rec hrec
    rw [processScript_stagedText]
    exact processScript_ledger_mem nfkc hash exec cfg applied b st name rec hrec

/-- C10, witness: concrete instances of the hash-identity, preamble-
independence and preamble-difference conjuncts. -/
theorem c10_hash_excludes_preamble_witness :
    (processScript id hash64 execZero sampleCfg [] true ⟨sampleFs, 0, []⟩
        "001_a.sql").1.scriptHash =
      hash64 ((processScript id hash64 execZero sampleCfg [] true ⟨sampleFs, 0, []⟩
        "001_a.sql").1.stagedText) ∧
    ((processScript id hash64 execZero sampleCfg [] true ⟨sampleFs, 0, []⟩
        "001_a.sql").1.stagedText =
      (processScript id hash64 execZero sampleCfg [] false ⟨sampleFs, 0, []⟩
        "001_a.sql").1.stagedText) ∧
    sessionPreamble true ++ "SELECT 1;\r\n" ≠ sessionPreamble false ++ "SELECT 1;\r\n" := by
  have h := c10_hash_excludes_session_preamble id hash64 execZero sampleCfg []
    ⟨sampleFs, 0, []⟩ "001_a.sql"
  exact ⟨h.1 true, h.2.2.1, h.2.2.2.2 "SELECT 1;\r\n"⟩

/-! Unfolding lemmas for `run_backend_installation` on a nonempty name list. -/

theorem run_backend_fresh (nfkc hash : String → String)
    (exec : String → Nat → Nat) (cfg : Config) (verbose : Bool)
    (ledger0 : List HistoryRecord) (fs0 : FS) (names : List String)
    (hne2 : names.isEmpty = false) :
    run_backend_installation nfkc hash exec cfg false verbose ledger0 fs0 names =
      ⟨(runScripts nfkc hash exec cfg [] verbose ⟨fs0, 0, ledger0⟩
          (ordenar_scripts names)).1,
       (runScripts nfkc hash exec cfg [] verbose ⟨fs0, 0, ledger0⟩
          (ordenar_scripts names)).2.1,
       (runScripts nfkc hash exec cfg [] verbose ⟨fs0, 0, ledger0⟩
          (ordenar_scripts names)).2.2⟩ := by
  unfold run_backend_installation
  rw [hne2]
  rfl

theorem run_backend_existing (nfkc hash : String → String)
    (exec : String → Nat → Nat) (cfg : Config) (verbose : Bool)
    (ledger0 : List HistoryRecord) (fs0 : FS) (names : List String)
    (hne2 : names.isEmpty = false) :
    run_backend_installation nfkc hash exec cfg true verbose ledger0 fs0 names =
      ⟨(runScripts nfkc hash exec cfg (get_applied_hashes ledger0) verbose
          ⟨fs0, 0, ledger0⟩ (ordenar_scripts names)).1,
       (runScripts nfkc hash exec cfg (get_applied_hashes ledger0) verbose
          ⟨fs0, 0, ledger0⟩ (ordenar_scripts names)).2.1,
       (runScripts nfkc hash exec cfg (get_applied_hashes ledger0) verbose
          ⟨fs0, 0, ledger0⟩ (ordenar_scripts names)).2.2⟩ := by
  unfold run_backend_installation
  rw [hne2]
  rfl

theorem ordenar_ne_nil (names : List String) (hne : names ≠ []) :
    ordenar_scripts names ≠ [] := by
  intro h0
  have hp : names.Perm (ordenar_scripts names) :=
    (List.perm_insertionSort scriptKeyLe names).symm
  rw [h0] at hp
  exact hne (List.Perm.eq_nil hp)

/-- C1: idempotence of a full run: when every execution of the first run
(against a fresh target, so with no applied hashes) succeeds, the first run
records a success row with the staged-text hash for every script; the second
run, with the same configuration, stages every script to the identical final
text, finds its hash among the applied hashes of the resulting ledger,
classifies every script as skipped with nothing submitted, and inserts no new
history record. -/
theorem c1_second_run_skips_all (nfkc hash : String → String)
    (exec1 exec2 : String → Nat → Nat) (cfg : Config) (verbose : Bool)
    (ledger0 : List HistoryRecord) (fs0 : FS) (names : List String)
    (hlen : ∀ s, (hash s).length = 64)
    (hexec : ∀ t n, exec1 t n = 0)
    (hdry : cfg.dryRun = false)
    (hne : names ≠ []) :
    (runTwice nfkc hash exec1 exec2 cfg verbose ledger0 fs0 names).1.results =
      (ordenar_scripts names).map (fun nm =>
        ⟨nm, stagedOf nfkc cfg fs0 nm, hash (stagedOf nfkc cfg fs0 nm),
          .succeeded 1, some (sessionPreamble verbose ++ stagedOf nfkc cfg fs0 nm)⟩) ∧
    (runTwice nfkc hash exec1 exec2 cfg verbose ledger0 fs0 names).2.results =
      (ordenar_scripts names).map (fun nm =>
        ⟨nm, stagedOf nfkc cfg fs0 nm, hash (stagedOf nfkc cfg fs0 nm),
          .skipped, none⟩) ∧
    (∀ nm ∈ ordenar_scripts names,
      hash (stagedOf nfkc cfg fs0 nm) ∈ get_applied_hashes
        (runTwice nfkc hash exec1 exec2 cfg verbose ledger0 fs0 names).1.state.ledger) ∧
    (runTwice nfkc hash exec1 exec2 cfg verbose ledger0 fs0 names).2.state.ledger =
      (runTwice nfkc hash exec1 exec2 cfg verbose ledger0 fs0 names).1.state.ledger := by
  have hne2 : names.isEmpty = false := by
    cases names with
    | nil => exact absurd rfl hne
    | cons a t => rfl
  have hscne := ordenar_ne_nil names hne
  have hmemAll : ∀ nm ∈ ordenar_scripts names,
      hash (stagedOf nfkc cfg fs0 nm) ∈ get_applied_hashes
        (ledger0 ++ (ordenar_scripts names).map (fun nm =>
          (⟨nm, hash (stagedOf nfkc cfg fs0 nm), true⟩ : HistoryRecord))) := by
    intro nm hnm
    rw [mem_get_applied_hashes]
    refine ⟨⟨nm, hash (stagedOf nfkc cfg fs0 nm), true⟩, ?_, rfl, rfl, hlen _⟩
    rw [List.mem_append]
    exact Or.inr (List.mem_map_of_mem _ hnm)
  have happl : (get_applied_hashes
      (ledger0 ++ (ordenar_scripts names).map (fun nm =>
        (⟨nm, hash (stagedOf nfkc cfg fs0 nm), true⟩ : HistoryRecord)))).isEmpty
      = false := by
    obtain ⟨nm0, rest0, hsc⟩ := List.exists_cons_of_ne_nil hscne
    have hm0 := hmemAll nm0 (by rw [hsc]; exact List.mem_cons_self _ _)
    cases hap : get_applied_hashes
        (ledger0 ++ (ordenar_scripts names).map (fun nm =>
          (⟨nm, hash (stagedOf nfkc cfg fs0 nm), true⟩ : HistoryRecord))) with
    | nil => rw [hap] at hm0; exact absurd hm0 (List.not_mem_nil _)
    | cons a t => rfl
  have hin : ∀ nm ∈ ordenar_scripts names,
      (get_applied_hashes
        (ledger0 ++ (ordenar_scripts names).map (fun nm =>
          (⟨nm, hash (stagedOf nfkc cfg fs0 nm), true⟩ : HistoryRecord)))).contains
        (hash (stagedOf nfkc cfg fs0 nm)) = true := by
    intro nm hnm
    rw [contains_iff_mem_str]
    exact hmemAll nm hnm
  unfold runTwice
  dsimp only
  rw [run_backend_fresh nfkc hash exec1 cfg verbose ledger0 fs0 names hne2]
  dsimp only
  rw [run_backend_existing nfkc hash exec2 cfg verbose _ _ names hne2]
  dsimp only
  obtain ⟨h1res, h1led, h1ok⟩ := runScripts_all_success nfkc hash exec1 cfg verbose
    fs0 hexec hdry (ordenar_scripts names) ⟨fs0, 0, ledger0⟩ (fun m => rfl)
  rw [h1led]
  have hsrc2 : ∀ m,
      fsRead (runScripts nfkc hash exec1 cfg [] verbose ⟨fs0, 0, ledger0⟩
        (ordenar_scripts names)).2.1.fs (FPath.src m) = fsRead fs0 (FPath.src m) :=
    fun m => runScripts_read_src nfkc hash exec1 cfg [] verbose
      (ordenar_scripts names) ⟨fs0, 0, ledger0⟩ m
  obtain ⟨h2res, h2led, h2ok⟩ := runScripts_all_skip nfkc hash exec2 cfg
    (get_applied_hashes
      (ledger0 ++ (ordenar_scripts names).map (fun nm =>
        (⟨nm, hash (stagedOf nfkc cfg fs0 nm), true⟩ : HistoryRecord))))
    verbose fs0 happl (ordenar_scripts names)
    ⟨(runScripts nfkc hash exec1 cfg [] verbose ⟨fs0, 0, ledger0⟩
        (ordenar_scripts names)).2.1.fs, 0,
      ledger0 ++ (ordenar_scripts names).map (fun nm =>
        (⟨nm, hash (stagedOf nfkc cfg fs0 nm), true⟩ : HistoryRecord))⟩
    hsrc2 hin
  exact ⟨h1res, h2res, hmemAll, h2led⟩

/-- C1, witness: a concrete two-script double run in which the second run
skips everything and leaves the ledger unchanged. -/
theorem c1_second_run_skips_all_witness :
    (runTwice id hash64 execZero execOne sampleCfg true [] sampleFs
        ["002_b.sql", "001_a.sql"]).1.results =
      (ordenar_scripts ["002_b.sql", "001_a.sql"]).map (fun nm =>
        ⟨nm, stagedOf id sampleCfg sampleFs nm, hash64 (stagedOf id sampleCfg sampleFs nm),
          .succeeded 1,
          some (sessionPreamble true ++ stagedOf id sampleCfg sampleFs nm)⟩) ∧
    (runTwice id hash64 execZero execOne sampleCfg true [] sampleFs
        ["002_b.sql", "001_a.sql"]).2.results =
      (ordenar_scripts ["002_b.sql", "001_a.sql"]).map (fun nm =>
        ⟨nm, stagedOf id sampleCfg sampleFs nm, hash64 (stagedOf id sampleCfg sampleFs nm),
          .skipped, none⟩) ∧
    (runTwice id hash64 execZero execOne sampleCfg true [] sampleFs
        ["002_b.sql", "001_a.sql"]).2.state.ledger =
      (runTwice id hash64 execZero execOne sampleCfg true [] sampleFs
        ["002_b.sql", "001_a.sql"]).1.state.ledger := by
  have H := c1_second_run_skips_all id hash64 execZero execOne sampleCfg true []
    sampleFs ["002_b.sql", "001_a.sql"] (fun _ => rfl) (fun _ _ => rfl) rfl
    (by decide)
  exact ⟨H.1, H.2.1, H.2.2.2⟩

/-- C2: retry budget and single terminal record: a first script whose every
attempt exits non-zero is attempted exactly `retries + 1` times, yields a
single result, inserts exactly one failure history record (none per attempt),
and aborts the run before any subsequent script. -/
theorem c2_retry_budget_single_record (nfkc hash : String → String)
    (exec : String → Nat → Nat) (cfg : Config) (verbose : Bool)
    (ledger0 : List HistoryRecord) (fs0 : FS) (names : List String)
    (name : String) (rest : List String)
    (hdry : cfg.dryRun = false)
    (hord : ordenar_scripts names = name :: rest)
    (hfail : ∀ n, exec (sessionPreamble verbose ++ stagedOf nfkc cfg fs0 name) n ≠ 0) :
    (run_backend_installation nfkc hash exec cfg false verbose ledger0 fs0
        names).results =
      [⟨name, stagedOf nfkc cfg fs0 name, hash (stagedOf nfkc cfg fs0 name),
        .failed (cfg.retries + 1),
        some (sessionPreamble verbose ++ stagedOf nfkc cfg fs0 name)⟩] ∧
    (run_backend_installation nfkc hash exec cfg false verbose ledger0 fs0
        names).state.ledger =
      ledger0 ++ [⟨name, hash (stagedOf nfkc cfg fs0 name), false⟩] ∧
    (run_backend_installation nfkc hash exec cfg false verbose ledger0 fs0
        names).ok = false := by
  have hne2 : names.isEmpty = false := by
    cases names with
    | nil =>
      rw [show ordenar_scripts ([] : List String) = [] from rfl] at hord
      exact absurd hord (by simp)
    | cons a t => rfl
  rw [run_backend_fresh nfkc hash exec cfg verbose ledger0 fs0 names hne2]
  dsimp only
  rw [hord]
  unfold runScripts
  dsimp only
  obtain ⟨hr, hl, hab⟩ := processScript_all_fail nfkc hash exec cfg verbose
    ⟨fs0, 0, ledger0⟩ name hdry hfail
  rw [hab, if_pos rfl, hr, hl]
  exact ⟨rfl, rfl, rfl⟩

/-- C2, witness: a concrete always-failing executor with `retries = 2` gives
exactly three attempts, one failure record, and an aborted run. -/
theorem c2_retry_budget_single_record_witness :
    (run_backend_installation id hash64 execOne sampleCfg false true [] sampleFs
        ["001_a.sql", "002_b.sql"]).results =
      [⟨"001_a.sql", stagedOf id sampleCfg sampleFs "001_a.sql",
        hash64 (stagedOf id sampleCfg sampleFs "001_a.sql"),
        .failed (sampleCfg.retries + 1),
        some (sessionPreamble true ++ stagedOf id sampleCfg sampleFs "001_a.sql")⟩] ∧
    (run_backend_installation id hash64 execOne sampleCfg false true [] sampleFs
        ["001_a.sql", "002_b.sql"]).state.ledger =
      [] ++ [⟨"001_a.sql", hash64 (stagedOf id sampleCfg sampleFs "001_a.sql"),
        false⟩] ∧
    (run_backend_installation id hash64 execOne sampleCfg false true [] sampleFs
        ["001_a.sql", "002_b.sql"]).ok = false :=
  c2_retry_budget_single_record id hash64 execOne sampleCfg true [] sampleFs
    ["001_a.sql", "002_b.sql"] "001_a.sql" ["002_b.sql"] rfl (by decide)
    (fun _ h => Nat.one_ne_zero h)

/-- C8: failed attempts never block re-execution: a hash all of whose ledger
records are failures is absent from the applied hashes, and the first sorted
script with such a hash is not skipped: it is staged, wrapped and submitted on
the next run. -/
theorem c8_failed_hashes_never_applied (nfkc hash : String → String)
    (exec : String → Nat → Nat) (cfg : Config) (verbose : Bool)
    (ledger0 : List HistoryRecord) (fs0 : FS) (names : List String)
    (name : String) (rest : List String)
    (hdry : cfg.dryRun = false)
    (hord : ordenar_scripts names = name :: rest)
    (hrec : ∀ rec ∈ ledger0,
      rec.scriptHash = hash (stagedOf nfkc cfg fs0 name) → rec.success = false) :
    hash (stagedOf nfkc cfg fs0 name) ∉ get_applied_hashes ledger0 ∧
    ∃ res rs,
      (run_backend_installation nfkc hash exec cfg true verbose ledger0 fs0
        names).results = res :: rs ∧
      res.name = name ∧
      res.stagedText = stagedOf nfkc cfg fs0 name ∧
      res.outcome ≠ .skipped ∧
      res.submitted = some (sessionPreamble verbose ++ stagedOf nfkc cfg fs0 name) := by
  have hnotmem : hash (stagedOf nfkc cfg fs0 name) ∉ get_applied_hashes ledger0 := by
    rw [mem_get_applied_hashes]
    rintro ⟨r, hr0, hs, hx, _⟩
    have hfalse := hrec r hr0 hx
    rw [hfalse] at hs
    exact absurd hs (by decide)
  refine ⟨hnotmem, ?_⟩
  have hne2 : names.isEmpty = false := by
    cases names with
    | nil =>
      rw [show ordenar_scripts ([] : List String) = [] from rfl] at hord
      exact absurd hord (by simp)
    | cons a t => rfl
  rw [run_backend_existing nfkc hash exec cfg verbose ledger0 fs0 names hne2]
  dsimp only
  rw [hord]
  unfold runScripts
  dsimp only
  have hcont : (get_applied_hashes ledger0).contains
      (hash (stagedOf nfkc cfg fs0 name)) = false := by
    cases hc : (get_applied_hashes ledger0).contains
        (hash (stagedOf nfkc cfg fs0 name)) with
    | false => rfl
    | true => exact absurd ((contains_iff_mem_str _ _).mp hc) hnotmem
  obtain ⟨hn, hstg, hout, hsub⟩ := processScript_not_skipped nfkc hash exec cfg
    (get_applied_hashes ledger0) verbose ⟨fs0, 0, ledger0⟩ name hdry hcont
  split
  · exact ⟨_, [], rfl, hn, hstg, hout, hsub⟩
  · exact ⟨_, _, rfl, hn, hstg, hout, hsub⟩

/-- C8, witness: a ledger holding only a failure record for the staged hash of
the first script does not mark it applied, and the script is submitted. -/
theorem c8_failed_hashes_never_applied_witness :
    hash64 (stagedOf id sampleCfg sampleFs "001_a.sql") ∉
      get_applied_hashes [⟨"999.sql", hash64 "", false⟩] ∧
    (run_backend_installation id hash64 execZero sampleCfg true true
        [⟨"999.sql", hash64 "", false⟩] sampleFs
        ["001_a.sql", "002_b.sql"]).results.head?.map
      (fun r => (r.name, r.stagedText, r.submitted)) =
      some ("001_a.sql", stagedOf id sampleCfg sampleFs "001_a.sql",
        some (sessionPreamble true ++ stagedOf id sampleCfg sampleFs "001_a.sql")) := by
  have H := c8_failed_hashes_never_applied id hash64 execZero sampleCfg true
    [⟨"999.sql", hash64 "", false⟩] sampleFs ["001_a.sql", "002_b.sql"]
    "001_a.sql" ["002_b.sql"] rfl (by decide)
    (fun rec hmem _ => by
      simp only [List.mem_singleton] at hmem
      rw [hmem])
  obtain ⟨h1, res, rs, heq, hn, hstg, _, hsub⟩ := H
  refine ⟨h1, ?_⟩
  rw [heq]
  simp only [List.head?_cons, Option.map_some']
  rw [hn, hstg, hsub]

end EFlowInstaller
